import Mathlib

/-!
Verification of the ROOT persistence kernel of the go-hep fork:
the TFormula codec (groot/rhist/formula.go), the rbytes buffer layer it is
written against (modelled from the spec where the source is not in the
sample), and the directory/key cycle-resolution scheme (modelled from the
spec; only its test harness appears in the sample).

Bytes are modelled as natural numbers (written values are reduced mod 256),
machine integers as Int/Nat with explicit conversions in two-complement form,
and float64 values as their 64-bit patterns (the codec only moves bit
patterns; no floating-point arithmetic occurs in the code under study).
-/

set_option maxHeartbeats 1600000
set_option maxRecDepth 4096
set_option linter.unnecessarySeqFocus false

/-! Big-endian byte-level encodings. -/

def u16be (n : Nat) : List Nat := [n / 256 % 256, n % 256]

def u32be (n : Nat) : List Nat :=
  [n / 16777216 % 256, n / 65536 % 256, n / 256 % 256, n % 256]

def u64be (n : Nat) : List Nat :=
  [n / 72057594037927936 % 256, n / 281474976710656 % 256,
   n / 1099511627776 % 256, n / 4294967296 % 256,
   n / 16777216 % 256, n / 65536 % 256, n / 256 % 256, n % 256]

/-- Big-endian accumulation of a byte list on top of an accumulator. -/
def beVal (acc : Nat) : List Nat → Nat
  | [] => acc
  | b :: bs => beVal (acc * 256 + b) bs

/-- Reading of a 16-bit pattern in two-complement form, as Go int16 does. -/
def toI16 (n : Nat) : Int := if n < 32768 then (n : Int) else (n : Int) - 65536

/-- Reading of a 32-bit pattern in two-complement form, as Go int32 does. -/
def toI32 (n : Nat) : Int :=
  if n < 2147483648 then (n : Int) else (n : Int) - 4294967296

/-- Bytes of a Go int32 value (two-complement form, big endian). -/
def i32bytes (v : Int) : List Nat := u32be (v % 4294967296).toNat

/-! Error kinds carried by a buffer (spec section 7). -/

inductive Err where
  | bufferExhausted : Err
  | unsupportedVersion (got max : Int) : Err
  | obsoleteVersion (got : Int) : Err
  | invalidVersion (typename : List Nat) (got want : Int) : Err
  | frameLengthMismatch (cls : List Nat) (want got : Nat) : Err
  | unknownClass (cls : List Nat) : Err
  | outOfFuel : Err
deriving DecidableEq, Repr

/-- Modelled from the spec: the rbytes read buffer (cursor over in-memory
bytes, with sticky error state); the rbytes source is not in the sample. -/
structure RBuffer where
  data : List Nat
  pos : Nat
  err : Option Err
deriving DecidableEq, Repr

/-- Modelled from the spec: the rbytes write buffer (append-at-end cursor,
with sticky error state); the rbytes source is not in the sample. -/
structure WBuffer where
  data : List Nat
  err : Option Err
deriving DecidableEq, Repr

/-- Outcome of a read computation: either a Go panic carrying an error, or a
returned value together with the updated buffer. -/
inductive PR (α : Type) where
  | panicked (e : Err) : PR α
  | ret (a : α) (r : RBuffer) : PR α
deriving DecidableEq, Repr

/-- Reader computations: state-passing over RBuffer, with panics. -/
def DecM (α : Type) : Type := RBuffer → PR α

def DecM.bind {α β : Type} (x : DecM α) (f : α → DecM β) : DecM β := fun r =>
  match x r with
  | .panicked e => .panicked e
  | .ret a r2 => f a r2

instance : Monad DecM where
  pure a := fun r => .ret a r
  bind := DecM.bind

@[simp] theorem DecM.bind_eq {α β : Type} (x : DecM α) (f : α → DecM β) :
    x >>= f = DecM.bind x f := rfl

@[simp] theorem DecM.pure_eq {α : Type} (a : α) :
    (pure a : DecM α) = fun r => .ret a r := rfl

/-- Modelled from the spec: RBuffer.SetErr keeps the first error (sticky). -/
def RBuffer.setErr (r : RBuffer) (e : Err) : RBuffer :=
  if r.err.isSome then r else { r with err := some e }

/-! Modelled from the spec: primitive reads. Each checks the sticky error
first, reads big-endian, and advances the cursor by the bytes consumed;
reading past the end is a fatal buffer-exhaustion error. -/

def readU8 : DecM Nat := fun r =>
  if r.err.isSome then .ret 0 r
  else
    match r.data[r.pos]? with
    | some b => .ret b { r with pos := r.pos + 1 }
    | none => .ret 0 { r with err := some .bufferExhausted }

def readBE (acc : Nat) : Nat → DecM Nat
  | 0 => pure acc
  | n + 1 => DecM.bind readU8 (fun b => readBE (acc * 256 + b) n)

def readU16 : DecM Nat := readBE 0 2
def readU32 : DecM Nat := readBE 0 4
def readU64 : DecM Nat := readBE 0 8

def ReadI32 : DecM Int := DecM.bind readU32 (fun n => pure (toI32 n))

def ReadBool : DecM Bool := DecM.bind readU8 (fun b => pure (decide (b ≠ 0)))

def readListN {α : Type} (item : DecM α) : Nat → DecM (List α)
  | 0 => pure []
  | n + 1 =>
    DecM.bind item fun a =>
      DecM.bind (readListN item n) fun as => pure (a :: as)

def readBytes (n : Nat) : DecM (List Nat) := readListN readU8 n

/-- Modelled from the spec: length-prefixed string read. -/
def ReadString : DecM (List Nat) := DecM.bind readU32 readBytes

/-- Modelled from the spec: flat float64 sequence read (count then 64-bit
patterns). -/
def ReadStdVectorF64 : DecM (List Nat) :=
  DecM.bind ReadI32 fun n => readListN readU64 n.toNat

/-- Modelled from the spec: read-side beginRecord. Reads the version tag and
the recorded length; returns (version, payload start position, recorded
length). -/
def readVersion (_cls : List Nat) : DecM (Int × Nat × Nat) := fun r =>
  match (DecM.bind readU16 fun v => DecM.bind readU32 fun c => pure (v, c)) r with
  | .panicked e => .panicked e
  | .ret vc r2 => .ret (toI16 vc.1, r2.pos, vc.2) r2

/-- Modelled from the spec: read-side endRecord. Checks that the bytes
consumed since the payload start equal the recorded length; mismatch sets a
corruption error naming the class. -/
def RBuffer.checkByteCount (r : RBuffer) (pos bcnt : Nat) (cls : List Nat) : RBuffer :=
  if r.err.isSome then r
  else if r.pos - pos = bcnt then r
  else { r with err := some (.frameLengthMismatch cls bcnt (r.pos - pos)) }

/-! Modelled from the spec: primitive writes (append at cursor; sticky
error makes every write a no-op). -/

def WBuffer.writeU8 (w : WBuffer) (b : Nat) : WBuffer :=
  if w.err.isSome then w else { w with data := w.data ++ [b % 256] }

def WBuffer.writeU32 (w : WBuffer) (n : Nat) : WBuffer :=
  if w.err.isSome then w else { w with data := w.data ++ u32be n }

def WBuffer.writeU64 (w : WBuffer) (n : Nat) : WBuffer :=
  if w.err.isSome then w else { w with data := w.data ++ u64be n }

def WBuffer.WriteBool (w : WBuffer) (b : Bool) : WBuffer :=
  w.writeU8 (if b then 1 else 0)

def WBuffer.WriteI32 (w : WBuffer) (v : Int) : WBuffer :=
  if w.err.isSome then w else { w with data := w.data ++ i32bytes v }

def WBuffer.WriteString (w : WBuffer) (s : List Nat) : WBuffer :=
  if w.err.isSome then w
  else { w with data := w.data ++ (u32be s.length ++ s.map (· % 256)) }

def WBuffer.writeF64List (w : WBuffer) : List Nat → WBuffer
  | [] => w
  | x :: xs => (w.writeU64 x).writeF64List xs

def WBuffer.WriteStdVectorF64 (w : WBuffer) (xs : List Nat) : WBuffer :=
  if w.err.isSome then w else (w.WriteI32 xs.length).writeF64List xs

/-- Modelled from the spec: write-side beginRecord. Writes the version tag,
reserves four bytes for the recorded length, and returns the position of the
payload start (just after the reservation). -/
def WBuffer.WriteVersion (w : WBuffer) (v : Int) : WBuffer × Nat :=
  if w.err.isSome then (w, w.data.length)
  else ({ w with data := w.data ++ (u16be (v % 65536).toNat ++ [0, 0, 0, 0]) },
        w.data.length + 6)

/-- Modelled from the spec: write-side endRecord. Computes the payload length
and overwrites the reserved length field; returns the length. -/
def WBuffer.SetByteCount (w : WBuffer) (pos : Nat) (_cls : List Nat) : WBuffer × Nat :=
  if w.err.isSome then (w, 0)
  else
    let n := w.data.length - pos
    ({ w with data := w.data.take (pos - 4) ++ u32be n ++ w.data.drop pos }, n)

/-! Directory / key store (modelled from the spec: only the test harness of
this component is in the sample). -/

structure Key where
  name : List Nat
  title : List Nat
  className : List Nat
  cycle : Nat
  seekPosition : Int
  compressedSize : Int
  uncompressedSize : Int
deriving DecidableEq, Repr

/-- Modelled from the spec: the key under a name with the greatest cycle. -/
def maxCycleKey : List Key → List Nat → Option Key
  | [], _ => none
  | k :: rest, name =>
    let m := maxCycleKey rest name
    if k.name = name then
      match m with
      | none => some k
      | some b => if b.cycle < k.cycle then some k else some b
    else m

/-- Modelled from the spec: resolution of a (name, optional cycle) request
against a directory, following spec section 4.6 steps 2 through 6. -/
def resolveCycle (dir : List Key) (name : List Nat) : Option Nat → Option Key
  | none => maxCycleKey dir name
  | some 0 => none
  | some c =>
    match dir.find? (fun k => k.name == name && k.cycle == c) with
    | some k => some k
    | none =>
      match maxCycleKey dir name with
      | none => none
      | some k => if k.cycle < c then some k else none

/-- Modelled from the spec: split a query at the first semicolon (byte 59). -/
def splitSemi : List Nat → List Nat × Option (List Nat)
  | [] => ([], none)
  | c :: rest =>
    if c = 59 then ([], some rest)
    else
      let p := splitSemi rest
      (c :: p.1, p.2)

def parseDecAux (acc : Nat) : List Nat → Option Nat
  | [] => some acc
  | d :: rest =>
    if 48 ≤ d ∧ d ≤ 57 then parseDecAux (acc * 10 + (d - 48)) rest else none

/-- Modelled from the spec: base-10 parse of a non-empty digit string. -/
def parseDec (s : List Nat) : Option Nat :=
  if s = [] then none else parseDecAux 0 s

/-- Modelled from the spec: query grammar name or name;cycle. A missing or
malformed cycle suffix is treated as a request for the latest cycle. -/
def decodeNameCycle (q : List Nat) : List Nat × Option Nat :=
  match splitSemi q with
  | (n, none) => (n, none)
  | (n, some cs) => (n, parseDec cs)

/-- Modelled from the spec: directory Get, resolving a textual query. -/
def Directory.Get (dir : List Key) (q : List Nat) : Option Key :=
  let nc := decodeNameCycle q
  resolveCycle dir nc.1 nc.2

/-! The TFormula data model (src/groot/rhist/formula.go). Strings are byte
lists, float64 values are 64-bit patterns, the Go map[string]int32 is an
association list in insertion order with distinct keys, and the
polymorphic []root.Object field holds optional registered objects (the
registry of the sample registers exactly the class TFormula). -/

/-- The rbase.Named base: name and title. -/
structure Named where
  name : List Nat
  title : List Nat
deriving DecidableEq, Repr

inductive Formula where
  | mk (named : Named) (clingParams : List Nat) (allParamsSet : Bool)
       (params : List (List Nat × Int)) (formula : List Nat) (ndim : Int)
       (linearParts : List (Option Formula)) (vectorized : Bool) : Formula

def Formula.named : Formula → Named
  | .mk x _ _ _ _ _ _ _ => x

def Formula.clingParams : Formula → List Nat
  | .mk _ x _ _ _ _ _ _ => x

def Formula.allParamsSet : Formula → Bool
  | .mk _ _ x _ _ _ _ _ => x

def Formula.params : Formula → List (List Nat × Int)
  | .mk _ _ _ x _ _ _ _ => x

def Formula.formula : Formula → List Nat
  | .mk _ _ _ _ x _ _ _ => x

def Formula.ndim : Formula → Int
  | .mk _ _ _ _ _ x _ _ => x

def Formula.linearParts : Formula → List (Option Formula)
  | .mk _ _ _ _ _ _ x _ => x

def Formula.vectorized : Formula → Bool
  | .mk _ _ _ _ _ _ _ x => x

/-- Go: newFormula, a fresh Formula with empty name and title. -/
def newFormula : Formula := .mk ⟨[], []⟩ [] false [] [] 0 [] false

/-- Go: (f).Name. -/
def Formula.Name (f : Formula) : List Nat := f.named.name

/-- Go: (f).Title. -/
def Formula.Title (f : Formula) : List Nat := f.named.title

/-- Modelled from the spec: rvers.Formula, the current (maximum supported)
TFormula class version; the supported range is 12 through 13. -/
def rversFormula : Int := 13

/-- Modelled from the spec: rvers.StreamerInfo, the container frame version
accepted by the container codecs. -/
def rversStreamerInfo : Int := 9

/-- Modelled from the spec: the version written for the Named base record. -/
def namedVersion : Int := 1

def tformulaName : List Nat := [84, 70, 111, 114, 109, 117, 108, 97]

def tnamedName : List Nat := [84, 78, 97, 109, 101, 100]

def mapTypename : List Nat :=
  [109, 97, 112, 60, 84, 83, 116, 114, 105, 110, 103, 44, 105, 110, 116, 44,
   84, 70, 111, 114, 109, 117, 108, 97, 80, 97, 114, 97, 109, 79, 114, 100,
   101, 114, 62]

def vecTypename : List Nat :=
  [118, 101, 99, 116, 111, 114, 60, 84, 79, 98, 106, 101, 99, 116, 42, 62]

/-- Go: rtypes.Factory after the init function of this package has run; it registers the
class TFormula with the constructor newFormula. -/
def rtypesFactory : List (List Nat × (Unit → Formula)) :=
  [(tformulaName, fun _ => newFormula)]

/-- Lookup of a class constructor in the factory. -/
def factoryGet (cls : List Nat) : Option (Unit → Formula) :=
  (rtypesFactory.find? (fun p => p.1 == cls)).map (·.2)

/-- Go map semantics on the association-list model: lookup by key. -/
def mapLookup (m : List (List Nat × Int)) (k : List Nat) : Option Int :=
  match m with
  | [] => none
  | p :: rest => if p.1 = k then some p.2 else mapLookup rest k

/-- Go map semantics on the association-list model: bind k to v, overwriting
an existing binding in place, else appending. -/
def mapInsert (m : List (List Nat × Int)) (k : List Nat) (v : Int) :
    List (List Nat × Int) :=
  match m with
  | [] => [(k, v)]
  | p :: rest => if p.1 = k then (k, v) :: rest else p :: mapInsert rest k v

/-! Go: writeMapStringInt (formula.go lines 155 through 168). The entry
sequence parameter is the order in which the Go range statement happens to
enumerate the map in one particular run. -/

def writePairs (w : WBuffer) : List (List Nat × Int) → WBuffer
  | [] => w
  | (k, v) :: rest => writePairs ((w.WriteString k).WriteI32 v) rest

def writeMapStringInt (w : WBuffer) (m : List (List Nat × Int)) : WBuffer :=
  if w.err.isSome then w
  else
    let p1 := w.WriteVersion rversStreamerInfo
    let w2 := p1.1.WriteI32 m.length
    let w3 := writePairs w2 m
    (w3.SetByteCount p1.2 mapTypename).1

/-- Go: rbase.Named marshalling, as invoked by w.WriteObject of the Named
base (modelled from the spec: version frame around name and title). -/
def Named.MarshalROOT (nm : Named) (w : WBuffer) : WBuffer × Nat :=
  if w.err.isSome then (w, 0)
  else
    let p1 := w.WriteVersion namedVersion
    let w2 := (p1.1.WriteString nm.name).WriteString nm.title
    w2.SetByteCount p1.2 tnamedName

mutual

/-- Go: (f).MarshalROOT (formula.go lines 57 through 73). -/
def Formula.MarshalROOT : Formula → WBuffer → WBuffer × Nat
  | .mk nm cp aps ps fm nd lp vz, w =>
    if w.err.isSome then (w, 0)
    else
      let p1 := w.WriteVersion rversFormula
      let w2 := (Named.MarshalROOT nm p1.1).1
      let w3 := w2.WriteStdVectorF64 cp
      let w4 := w3.WriteBool aps
      let w5 := writeMapStringInt w4 ps
      let w6 := w5.WriteString fm
      let w7 := w6.WriteI32 nd
      let w8 := writeStdVectorObjP w7 lp
      let w9 := w8.WriteBool vz
      w9.SetByteCount p1.2 tformulaName
termination_by f _ => (sizeOf f, 3)

/-- Go: writeStdVectorObjP (formula.go lines 170 through 181). -/
def writeStdVectorObjP (w : WBuffer) (vs : List (Option Formula)) : WBuffer :=
  if w.err.isSome then w
  else
    let p1 := w.WriteVersion rversStreamerInfo
    let w2 := p1.1.WriteI32 vs.length
    let w3 := writeObjList w2 vs
    (w3.SetByteCount p1.2 vecTypename).1
termination_by (sizeOf vs, 2)

def writeObjList (w : WBuffer) : List (Option Formula) → WBuffer
  | [] => w
  | o :: rest => writeObjList (WriteObjectAny w o) rest
termination_by vs => (sizeOf vs, 1)

/-- Modelled from the spec: w.WriteObjectAny, a polymorphic reference: a
null marker byte, or a marker byte followed by the class-name tag and the
marshalling of the object itself. -/
def WriteObjectAny (w : WBuffer) : Option Formula → WBuffer
  | none => w.writeU8 0
  | some f => (Formula.MarshalROOT f ((w.writeU8 1).WriteString tformulaName)).1
termination_by o => (sizeOf o, 0)

end

/-! Pure byte-level encodings of each field, mirroring what the writers
append; these are the reference lists the round-trip proofs manipulate. -/

def encStr (s : List Nat) : List Nat := u32be s.length ++ s.map (· % 256)

def encBool (b : Bool) : List Nat := [if b then 1 else 0]

def frameBytes (v : Int) (payload : List Nat) : List Nat :=
  u16be (v % 65536).toNat ++ (u32be payload.length ++ payload)

def encNamed (nm : Named) : List Nat :=
  frameBytes namedVersion (encStr nm.name ++ encStr nm.title)

def encF64vec (xs : List Nat) : List Nat :=
  i32bytes xs.length ++ (xs.map u64be).flatten

def encPair (p : List Nat × Int) : List Nat := encStr p.1 ++ i32bytes p.2

def encMapBody (ps : List (List Nat × Int)) : List Nat :=
  i32bytes ps.length ++ (ps.map encPair).flatten

def encMap (ps : List (List Nat × Int)) : List Nat :=
  frameBytes rversStreamerInfo (encMapBody ps)

mutual

def encFormulaPayload : Formula → List Nat
  | .mk nm cp aps ps fm nd lp vz =>
    encNamed nm ++ (encF64vec cp ++ (encBool aps ++ (encMap ps ++
      (encStr fm ++ (i32bytes nd ++ (encVecObjP lp ++ encBool vz))))))
termination_by f => (sizeOf f, 3)

def encVecObjP (vs : List (Option Formula)) : List Nat :=
  frameBytes rversStreamerInfo (i32bytes vs.length ++ encObjList vs)
termination_by (sizeOf vs, 2)

def encObjList : List (Option Formula) → List Nat
  | [] => []
  | o :: rest => encObjAny o ++ encObjList rest
termination_by vs => (sizeOf vs, 1)

def encObjAny : Option Formula → List Nat
  | none => [0]
  | some f =>
    [1] ++ (encStr tformulaName ++ frameBytes rversFormula (encFormulaPayload f))
termination_by o => (sizeOf o, 0)

end

def encFormula (f : Formula) : List Nat :=
  frameBytes rversFormula (encFormulaPayload f)

/-! Nesting depth of the polymorphic object graph; the fuel of the decoder
must dominate it. -/

mutual

def Formula.depth : Formula → Nat
  | .mk _ _ _ _ _ _ lp _ => depthList lp
termination_by f => (sizeOf f, 2)

def depthList : List (Option Formula) → Nat
  | [] => 0
  | o :: rest => max (depthObj o) (depthList rest)
termination_by vs => (sizeOf vs, 1)

def depthObj : Option Formula → Nat
  | none => 0
  | some f => Formula.depth f + 1
termination_by o => (sizeOf o, 0)

end

/-! Validity of a Formula value: what the Go types guarantee (bytes below
256, lengths within int32, int32 fields in range, map keys distinct) plus
the requirement that the payload of every frame fits the 32-bit length
field. -/

def validStrb (s : List Nat) : Bool :=
  s.all (fun b => decide (b < 256)) && decide (s.length < 2147483648)

def validI32b (v : Int) : Bool :=
  decide (-2147483648 ≤ v) && decide (v < 2147483648)

def distinctKeysb : List (List Nat × Int) → Bool
  | [] => true
  | p :: rest => (mapLookup rest p.1).isNone && distinctKeysb rest

def validPairsb : List (List Nat × Int) → Bool
  | [] => true
  | p :: rest => validStrb p.1 && validI32b p.2 && validPairsb rest

mutual

def Formula.validb : Formula → Bool
  | .mk nm cp aps ps fm nd lp vz =>
    validStrb nm.name && validStrb nm.title &&
    decide ((encStr nm.name ++ encStr nm.title).length < 4294967296) &&
    cp.all (fun x => decide (x < 18446744073709551616)) &&
    decide (cp.length < 2147483648) &&
    distinctKeysb ps && validPairsb ps && decide (ps.length < 2147483648) &&
    decide ((encMapBody ps).length < 4294967296) &&
    validStrb fm && validI32b nd &&
    decide (lp.length < 2147483648) &&
    decide ((i32bytes lp.length ++ encObjList lp).length < 4294967296) &&
    validObjListb lp &&
    decide ((encFormulaPayload (.mk nm cp aps ps fm nd lp vz)).length < 4294967296)
termination_by f => (sizeOf f, 2)

def validObjListb : List (Option Formula) → Bool
  | [] => true
  | o :: rest => validObjb o && validObjListb rest
termination_by vs => (sizeOf vs, 1)

def validObjb : Option Formula → Bool
  | none => true
  | some f => Formula.validb f
termination_by o => (sizeOf o, 0)

end

/-! The decoders. Go: (f).UnmarshalROOT, readMapStringInt and
readStdVectorObjP (formula.go lines 75 through 153). The fuel parameter is
a modelling bound on the nesting depth of polymorphic references: it only
decreases when ReadObjectAny dispatches into a nested object, and with fuel
of at least the depth of the value it never runs out. -/

/-- Go: rbase.Named unmarshalling, as invoked by r.ReadObject of the Named
base (modelled from the spec: version frame around name and title). -/
def Named.UnmarshalROOT (nm : Named) : DecM Named := fun r =>
  if r.err.isSome then .ret nm r
  else
    match readVersion tnamedName r with
    | .panicked e => .panicked e
    | .ret t r1 =>
      match (DecM.bind ReadString fun name =>
             DecM.bind ReadString fun title => pure (name, title)) r1 with
      | .panicked e => .panicked e
      | .ret p r2 => .ret ⟨p.1, p.2⟩ (r2.checkByteCount t.2.1 t.2.2 tnamedName)

def readMapPairs : Nat → List (List Nat × Int) → DecM (List (List Nat × Int))
  | 0, acc => pure acc
  | n + 1, acc =>
    DecM.bind ReadString fun k =>
    DecM.bind ReadI32 fun v =>
    readMapPairs n (mapInsert acc k v)

/-- Go: readMapStringInt (formula.go lines 109 through 131). -/
def readMapStringInt : DecM (List (List Nat × Int)) := fun r =>
  if r.err.isSome then .ret [] r
  else
    match readVersion mapTypename r with
    | .panicked e => .panicked e
    | .ret t r1 =>
      if t.1 ≠ rversStreamerInfo then
        .ret [] (r1.setErr (.invalidVersion mapTypename t.1 rversStreamerInfo))
      else
        match (DecM.bind ReadI32 fun n => readMapPairs n.toNat []) r1 with
        | .panicked e => .panicked e
        | .ret m r2 => .ret m (r2.checkByteCount t.2.1 t.2.2 mapTypename)

mutual

/-- Go: (f).UnmarshalROOT (formula.go lines 75 through 103). Version gating
panics are modelled as the panicked outcome. -/
def Formula.UnmarshalROOT (fuel : Nat) (f : Formula) : DecM Formula := fun r =>
  if r.err.isSome then .ret f r
  else
    match readVersion tformulaName r with
    | .panicked e => .panicked e
    | .ret t r1 =>
      if rversFormula < t.1 then .panicked (.unsupportedVersion t.1 rversFormula)
      else if t.1 < 12 ∨ 13 < t.1 then .panicked (.obsoleteVersion t.1)
      else
        match (DecM.bind (Named.UnmarshalROOT f.named) fun nm =>
               DecM.bind ReadStdVectorF64 fun cp =>
               DecM.bind ReadBool fun aps =>
               DecM.bind readMapStringInt fun ps =>
               DecM.bind ReadString fun fm =>
               DecM.bind ReadI32 fun nd =>
               DecM.bind (readStdVectorObjP fuel) fun lp =>
               DecM.bind ReadBool fun vz =>
               pure (Formula.mk nm cp aps ps fm nd lp vz)) r1 with
        | .panicked e => .panicked e
        | .ret g r2 => .ret g (r2.checkByteCount t.2.1 t.2.2 tformulaName)
termination_by (fuel, 3, 0)

/-- Go: readStdVectorObjP (formula.go lines 133 through 153). -/
def readStdVectorObjP (fuel : Nat) : DecM (List (Option Formula)) := fun r =>
  if r.err.isSome then .ret [] r
  else
    match readVersion vecTypename r with
    | .panicked e => .panicked e
    | .ret t r1 =>
      if t.1 ≠ rversStreamerInfo then
        .ret [] (r1.setErr (.invalidVersion vecTypename t.1 rversStreamerInfo))
      else
        match (DecM.bind ReadI32 fun n => readObjList fuel n.toNat) r1 with
        | .panicked e => .panicked e
        | .ret vs r2 => .ret vs (r2.checkByteCount t.2.1 t.2.2 vecTypename)
termination_by (fuel, 2, 0)

def readObjList (fuel : Nat) : Nat → DecM (List (Option Formula))
  | 0 => pure []
  | n + 1 =>
    DecM.bind (ReadObjectAny fuel) fun o =>
    DecM.bind (readObjList fuel n) fun rest =>
    pure (o :: rest)
termination_by n => (fuel, 1, n)

/-- Modelled from the spec: r.ReadObjectAny, a polymorphic reference read: a
null marker decodes to an absent value without consulting the registry; a
present marker reads the class-name tag, asks the registry for a blank
instance, and dispatches the decode logic of that instance. -/
def ReadObjectAny (fuel : Nat) : DecM (Option Formula) := fun r =>
  if r.err.isSome then .ret none r
  else
    match readU8 r with
    | .panicked e => .panicked e
    | .ret b r1 =>
      if b = 0 then .ret none r1
      else
        match ReadString r1 with
        | .panicked e => .panicked e
        | .ret cls r2 =>
          match factoryGet cls with
          | none => .ret none (r2.setErr (.unknownClass cls))
          | some ctor =>
            match fuel with
            | 0 => .panicked .outOfFuel
            | fuel2 + 1 =>
              match Formula.UnmarshalROOT fuel2 (ctor ()) r2 with
              | .panicked e => .panicked e
              | .ret g r3 => .ret (some g) r3
termination_by (fuel, 0, 0)

end

/-! Round-trip machinery: ReadsOk enc m v says the reader m, run at the
start of the byte segment enc (with arbitrary surrounding bytes and no
pending error), returns v and consumes exactly enc. -/

def ReadsOk {α : Type} (enc : List Nat) (m : DecM α) (v : α) : Prop :=
  ∀ pre post : List Nat,
    m ⟨pre ++ (enc ++ post), pre.length, none⟩ =
      .ret v ⟨pre ++ (enc ++ post), pre.length + enc.length, none⟩

theorem readsOk_pure {α : Type} (v : α) : ReadsOk [] (pure v) v := by
  intro pre post
  simp [Pure.pure]

theorem ReadsOk.comp {α β : Type} {e1 e2 : List Nat} (x : DecM α) (f : α → DecM β)
    {v1 : α} {v2 : β} (h1 : ReadsOk e1 x v1) (h2 : ReadsOk e2 (f v1) v2) :
    ReadsOk (e1 ++ e2) (DecM.bind x f) v2 := by
  intro pre post
  have hd : pre ++ ((e1 ++ e2) ++ post) = pre ++ (e1 ++ (e2 ++ post)) := by
    simp [List.append_assoc]
  rw [hd]
  have k1 := h1 pre (e2 ++ post)
  unfold DecM.bind
  rw [k1]
  have k2 := h2 (pre ++ e1) post
  simp only [List.append_assoc, List.length_append] at k2
  simp only [List.length_append]
  rw [← Nat.add_assoc]
  exact k2

theorem readU8_eq (d : List Nat) (p b : Nat) (h : d[p]? = some b) :
    readU8 ⟨d, p, none⟩ = .ret b ⟨d, p + 1, none⟩ := by
  unfold readU8
  simp [h]

theorem readU8_ok (b : Nat) : ReadsOk [b] readU8 b := by
  intro pre post
  have hg : (pre ++ ([b] ++ post))[pre.length]? = some b := by
    rw [List.getElem?_append_right (Nat.le_refl _)]
    simp
  rw [readU8_eq _ _ _ hg]
  simp

@[simp] theorem u16be_length (n : Nat) : (u16be n).length = 2 := rfl

@[simp] theorem u32be_length (n : Nat) : (u32be n).length = 4 := rfl

@[simp] theorem u64be_length (n : Nat) : (u64be n).length = 8 := rfl

@[simp] theorem i32bytes_length (v : Int) : (i32bytes v).length = 4 := rfl

theorem readBE_ok (bs : List Nat) :
    ∀ acc : Nat, ReadsOk bs (readBE acc bs.length) (beVal acc bs) := by
  induction bs with
  | nil =>
    intro acc pre post
    simp [readBE, beVal, Pure.pure]
  | cons b rest ih =>
    intro acc
    have h1 := readU8_ok b
    have h2 := ih (acc * 256 + b)
    have h3 := ReadsOk.comp readU8
      (fun b2 => readBE (acc * 256 + b2) rest.length) h1 h2
    simpa [readBE, beVal] using h3

theorem beVal_u16 (n : Nat) : beVal 0 (u16be n) = n % 65536 := by
  simp [beVal, u16be]
  omega

theorem beVal_u32 (n : Nat) : beVal 0 (u32be n) = n % 4294967296 := by
  simp [beVal, u32be]
  omega

theorem beVal_u64 (n : Nat) : beVal 0 (u64be n) = n % 18446744073709551616 := by
  simp [beVal, u64be]
  omega

theorem readU16_ok (n : Nat) (h : n < 65536) : ReadsOk (u16be n) readU16 n := by
  have h0 := readBE_ok (u16be n) 0
  rw [u16be_length, beVal_u16, Nat.mod_eq_of_lt h] at h0
  exact h0

theorem readU32_ok (n : Nat) (h : n < 4294967296) : ReadsOk (u32be n) readU32 n := by
  have h0 := readBE_ok (u32be n) 0
  rw [u32be_length, beVal_u32, Nat.mod_eq_of_lt h] at h0
  exact h0

theorem readU64_ok (n : Nat) (h : n < 18446744073709551616) :
    ReadsOk (u64be n) readU64 n := by
  have h0 := readBE_ok (u64be n) 0
  rw [u64be_length, beVal_u64, Nat.mod_eq_of_lt h] at h0
  exact h0

theorem readListN_ok {α : Type} (item : DecM α) (enc : α → List Nat)
    (vs : List α) (h : ∀ v ∈ vs, ReadsOk (enc v) item v) :
    ReadsOk ((vs.map enc).flatten) (readListN item vs.length) vs := by
  induction vs with
  | nil =>
    intro pre post
    simp [readListN, Pure.pure]
  | cons a rest ih =>
    have h1 : ReadsOk (enc a) item a := h a (by simp)
    have h2 := ih (fun v hv => h v (by simp [hv]))
    have h3 := ReadsOk.comp (readListN item rest.length)
      (fun as => pure (a :: as)) h2 (readsOk_pure (a :: rest))
    have h4 := ReadsOk.comp item
      (fun a2 => DecM.bind (readListN item rest.length) (fun as => pure (a2 :: as)))
      h1 h3
    simpa [readListN] using h4

theorem flatten_map_singleton (s : List Nat) :
    (s.map (fun b => [b])).flatten = s := by
  induction s with
  | nil => rfl
  | cons b rest ih => simp [ih]

theorem readBytes_ok (s : List Nat) : ReadsOk s (readBytes s.length) s := by
  have h0 := readListN_ok readU8 (fun b => [b]) s (fun v _ => readU8_ok v)
  rw [flatten_map_singleton] at h0
  exact h0

theorem map_mod_eq_self {s : List Nat} (h : ∀ b ∈ s, b < 256) :
    s.map (· % 256) = s := by
  induction s with
  | nil => rfl
  | cons b rest ih =>
    simp only [List.map_cons, List.cons.injEq]
    exact ⟨Nat.mod_eq_of_lt (h b (by simp)), ih (fun x hx => h x (by simp [hx]))⟩

theorem ReadString_ok (s : List Nat) (h256 : ∀ b ∈ s, b < 256)
    (hlen : s.length < 4294967296) : ReadsOk (encStr s) ReadString s := by
  have h1 := readU32_ok s.length hlen
  have h2 := readBytes_ok s
  have h3 := ReadsOk.comp readU32 readBytes h1 h2
  simpa [ReadString, encStr, map_mod_eq_self h256] using h3

theorem ReadBool_ok (b : Bool) : ReadsOk (encBool b) ReadBool b := by
  have h1 := readU8_ok (if b then 1 else 0)
  have h2 := ReadsOk.comp readU8 (fun b2 => pure (decide (b2 ≠ 0))) h1
    (readsOk_pure (decide ((if b then 1 else 0) ≠ 0)))
  have hb : decide ((if b then (1 : Nat) else 0) ≠ 0) = b := by
    cases b <;> simp
  rw [hb] at h2
  simpa [ReadBool, encBool] using h2

theorem i32bytes_lt (v : Int) : (v % 4294967296).toNat < 4294967296 := by
  omega

theorem toI32_i32bytes (v : Int) (hlo : -2147483648 ≤ v) (hhi : v < 2147483648) :
    toI32 (v % 4294967296).toNat = v := by
  unfold toI32
  split <;> omega

theorem ReadI32_ok (v : Int) (hlo : -2147483648 ≤ v) (hhi : v < 2147483648) :
    ReadsOk (i32bytes v) ReadI32 v := by
  have h1 := readU32_ok (v % 4294967296).toNat (i32bytes_lt v)
  have h2 := ReadsOk.comp readU32 (fun n => pure (toI32 n)) h1
    (readsOk_pure (toI32 (v % 4294967296).toNat))
  rw [toI32_i32bytes v hlo hhi] at h2
  simpa [ReadI32, i32bytes] using h2

theorem ReadStdVectorF64_ok (xs : List Nat)
    (h64 : ∀ x ∈ xs, x < 18446744073709551616) (hlen : xs.length < 2147483648) :
    ReadsOk (encF64vec xs) ReadStdVectorF64 xs := by
  have h1 := ReadI32_ok (xs.length : Int) (by omega) (by exact_mod_cast hlen)
  have h2 := readListN_ok readU64 u64be xs (fun v hv => readU64_ok v (h64 v hv))
  have h3 : ReadsOk ((xs.map u64be).flatten)
      (readListN readU64 ((xs.length : Int)).toNat) xs := by
    simpa using h2
  have h4 := ReadsOk.comp ReadI32 (fun n => readListN readU64 n.toNat) h1 h3
  simpa [ReadStdVectorF64, encF64vec, i32bytes] using h4

theorem ReadsOk.shift {α : Type} {enc : List Nat} {m : DecM α} {v : α}
    (h : ReadsOk enc m v) (pre mid post : List Nat) :
    m ⟨pre ++ (mid ++ (enc ++ post)), pre.length + mid.length, none⟩ =
      .ret v ⟨pre ++ (mid ++ (enc ++ post)),
              pre.length + mid.length + enc.length, none⟩ := by
  have k := h (pre ++ mid) post
  simp only [List.append_assoc, List.length_append] at k
  exact k

theorem readVersion_at (cls pre post : List Nat) (vb c : Nat)
    (hvb : vb < 65536) (hc : c < 4294967296) :
    readVersion cls ⟨pre ++ (u16be vb ++ (u32be c ++ post)), pre.length, none⟩ =
      .ret (toI16 vb, pre.length + 6, c)
        ⟨pre ++ (u16be vb ++ (u32be c ++ post)), pre.length + 6, none⟩ := by
  have h1 := readU16_ok vb hvb
  have h2 := readU32_ok c hc
  have h3 := ReadsOk.comp readU32 (fun c2 => pure (vb, c2)) h2 (readsOk_pure (vb, c))
  have h4 := ReadsOk.comp readU16
    (fun v => DecM.bind readU32 fun c2 => pure (v, c2)) h1 h3
  have h5 : ReadsOk (u16be vb ++ u32be c)
      (DecM.bind readU16 fun v => DecM.bind readU32 fun c2 => pure (v, c2))
      (vb, c) := by
    simpa using h4
  have hdata : pre ++ (u16be vb ++ (u32be c ++ post)) =
      pre ++ ((u16be vb ++ u32be c) ++ post) := by
    simp [List.append_assoc]
  rw [hdata]
  unfold readVersion
  rw [h5 pre post]
  simp [List.append_assoc]

theorem ReadsOk.shift6 {α : Type} {enc : List Nat} {m : DecM α} {v : α}
    (h : ReadsOk enc m v) (pre mid1 mid2 post : List Nat)
    (h1 : mid1.length = 2) (h2 : mid2.length = 4) :
    m ⟨pre ++ (mid1 ++ (mid2 ++ (enc ++ post))), pre.length + 6, none⟩ =
      .ret v ⟨pre ++ (mid1 ++ (mid2 ++ (enc ++ post))),
              pre.length + 6 + enc.length, none⟩ := by
  have k := h (pre ++ (mid1 ++ mid2)) post
  simp only [List.append_assoc, List.length_append, h1, h2] at k
  norm_num at k
  exact k

theorem encStr_length (s : List Nat) : (encStr s).length = 4 + s.length := by
  simp [encStr]

theorem frameBytes_length (v : Int) (P : List Nat) :
    (frameBytes v P).length = 6 + P.length := by
  simp [frameBytes]
  omega

theorem NamedUnmarshalROOT_ok (nm recv : Named)
    (hn : ∀ b ∈ nm.name, b < 256) (hnl : nm.name.length < 2147483648)
    (ht : ∀ b ∈ nm.title, b < 256) (htl : nm.title.length < 2147483648)
    (hP : (encStr nm.name ++ encStr nm.title).length < 4294967296) :
    ReadsOk (encNamed nm) (Named.UnmarshalROOT recv) nm := by
  obtain ⟨nmn, nmt⟩ := nm
  dsimp only at hn hnl ht htl hP
  intro pre post
  have hb1 := ReadString_ok nmn hn (by omega)
  have hb2 := ReadString_ok nmt ht (by omega)
  have hb3 := ReadsOk.comp ReadString (fun title => pure (nmn, title)) hb2
    (readsOk_pure (nmn, nmt))
  have hb4 := ReadsOk.comp ReadString
    (fun name => DecM.bind ReadString fun title => pure (name, title)) hb1 hb3
  have hbody : ReadsOk (encStr nmn ++ encStr nmt)
      (DecM.bind ReadString fun name =>
        DecM.bind ReadString fun title => pure (name, title)) (nmn, nmt) := by
    simpa using hb4
  have hdata : pre ++ (encNamed ⟨nmn, nmt⟩ ++ post) =
      pre ++ (u16be ((namedVersion % 65536)).toNat ++
        (u32be (encStr nmn ++ encStr nmt).length ++
          ((encStr nmn ++ encStr nmt) ++ post))) := by
    simp [encNamed, frameBytes, List.append_assoc]
  unfold Named.UnmarshalROOT
  rw [hdata]
  have hrv := readVersion_at tnamedName pre ((encStr nmn ++ encStr nmt) ++ post)
    ((namedVersion % 65536)).toNat (encStr nmn ++ encStr nmt).length
    (by decide) hP
  have hbd := ReadsOk.shift6 hbody pre (u16be ((namedVersion % 65536)).toNat)
    (u32be (encStr nmn ++ encStr nmt).length) post rfl rfl
  have hsub : pre.length + 6 + (encStr nmn ++ encStr nmt).length -
      (pre.length + 6) = (encStr nmn ++ encStr nmt).length := by omega
  simp only [hrv]
  simp only [hbd]
  simp only [RBuffer.checkByteCount]
  simp [hsub, encNamed, frameBytes_length, Nat.add_assoc]
  omega

/-! Association-list map lemmas. -/

def foldIns (acc : List (List Nat × Int)) :
    List (List Nat × Int) → List (List Nat × Int)
  | [] => acc
  | p :: rest => foldIns (mapInsert acc p.1 p.2) rest

/-- Value of the last occurrence of a key in a pair sequence. -/
def lastBinding : List (List Nat × Int) → List Nat → Option Int
  | [], _ => none
  | p :: rest, k =>
    match lastBinding rest k with
    | some v => some v
    | none => if p.1 = k then some p.2 else none

theorem validStrb_facts {s : List Nat} (h : validStrb s = true) :
    (∀ b ∈ s, b < 256) ∧ s.length < 2147483648 := by
  simp only [validStrb, Bool.and_eq_true, List.all_eq_true, decide_eq_true_eq] at h
  exact h

theorem validI32b_facts {v : Int} (h : validI32b v = true) :
    -2147483648 ≤ v ∧ v < 2147483648 := by
  simp only [validI32b, Bool.and_eq_true, decide_eq_true_eq] at h
  exact h

theorem mapLookup_eq_none_iff (m : List (List Nat × Int)) (k : List Nat) :
    mapLookup m k = none ↔ ∀ p ∈ m, p.1 ≠ k := by
  induction m with
  | nil => simp [mapLookup]
  | cons p rest ih => by_cases hp : p.1 = k <;> simp [mapLookup, hp, ih]

theorem mapLookup_none_insert (acc : List (List Nat × Int)) (k : List Nat) (v : Int)
    (h : mapLookup acc k = none) : mapInsert acc k v = acc ++ [(k, v)] := by
  induction acc with
  | nil => simp [mapInsert]
  | cons p rest ih =>
    by_cases hp : p.1 = k
    · simp [mapLookup, hp] at h
    · simp only [mapLookup, hp, if_neg, ite_false] at h
      simp [mapInsert, hp, ih h]

theorem mapLookup_append_none (a b : List (List Nat × Int)) (k : List Nat)
    (ha : mapLookup a k = none) : mapLookup (a ++ b) k = mapLookup b k := by
  induction a with
  | nil => simp
  | cons p rest ih =>
    by_cases hp : p.1 = k
    · simp [mapLookup, hp] at ha
    · simp only [mapLookup, hp, ite_false, if_neg] at ha
      simp [mapLookup, hp, ih ha]

theorem foldIns_distinct : ∀ (ps acc : List (List Nat × Int)),
    distinctKeysb ps = true → (∀ p ∈ ps, mapLookup acc p.1 = none) →
    foldIns acc ps = acc ++ ps := by
  intro ps
  induction ps with
  | nil => intro acc _ _; simp [foldIns]
  | cons p rest ih =>
    intro acc hd hacc
    have hd1 : mapLookup rest p.1 = none := by
      simp only [distinctKeysb, Bool.and_eq_true, Option.isNone_iff_eq_none] at hd
      exact hd.1
    have hd2 : distinctKeysb rest = true := by
      simp only [distinctKeysb, Bool.and_eq_true] at hd
      exact hd.2
    have hstep : foldIns acc (p :: rest) = foldIns (mapInsert acc p.1 p.2) rest := rfl
    rw [hstep, mapLookup_none_insert acc p.1 p.2 (hacc p (by simp))]
    rw [ih (acc ++ [(p.1, p.2)]) hd2 ?_]
    · simp
    · intro q hq
      have hq1 : q.1 ≠ p.1 := by
        have := (mapLookup_eq_none_iff rest p.1).mp hd1 q hq
        exact this
      rw [mapLookup_append_none _ _ _ (hacc q (by simp [hq]))]
      simp [mapLookup, hq1.symm]

theorem mapLookup_mapInsert (m : List (List Nat × Int)) (k : List Nat) (v : Int)
    (q : List Nat) :
    mapLookup (mapInsert m k v) q = if k = q then some v else mapLookup m q := by
  induction m with
  | nil => by_cases h : k = q <;> simp [mapInsert, mapLookup, h]
  | cons p rest ih =>
    by_cases hq : k = q
    · subst hq
      by_cases hp : p.1 = k
      · simp [mapInsert, hp, mapLookup]
      · simp [mapInsert, hp, mapLookup, ih]
    · by_cases hp : p.1 = k
      · have hpq : p.1 ≠ q := by rw [hp]; exact hq
        simp [mapInsert, hp, mapLookup, hq, hpq]
      · have h1 : mapInsert (p :: rest) k v = p :: mapInsert rest k v := by
          simp [mapInsert, hp]
        rw [h1]
        by_cases hpq : p.1 = q
        · simp [mapLookup, hq, hpq]
        · simp [mapLookup, hq, hpq, ih]

theorem mapLookup_foldIns (ps : List (List Nat × Int)) :
    ∀ (acc : List (List Nat × Int)) (k : List Nat),
      mapLookup (foldIns acc ps) k =
        match lastBinding ps k with
        | some v => some v
        | none => mapLookup acc k := by
  induction ps with
  | nil => intro acc k; simp [foldIns, lastBinding]
  | cons p rest ih =>
    intro acc k
    have hstep : foldIns acc (p :: rest) = foldIns (mapInsert acc p.1 p.2) rest := rfl
    rw [hstep, ih]
    cases hlb : lastBinding rest k with
    | some v => simp [lastBinding, hlb]
    | none =>
      by_cases hpk : p.1 = k <;>
        simp [lastBinding, hlb, mapLookup_mapInsert, hpk]

theorem readMapPairs_ok : ∀ ps : List (List Nat × Int), validPairsb ps = true →
    ∀ acc : List (List Nat × Int),
      ReadsOk ((ps.map encPair).flatten) (readMapPairs ps.length acc)
        (foldIns acc ps) := by
  intro ps
  induction ps with
  | nil =>
    intro _ acc pre post
    simp [readMapPairs, foldIns, Pure.pure]
  | cons p rest ih =>
    intro hv acc
    have hv3 : validStrb p.1 = true ∧ validI32b p.2 = true ∧
        validPairsb rest = true := by
      simpa [validPairsb, Bool.and_eq_true, and_assoc] using hv
    obtain ⟨h1, h2, h3⟩ := hv3
    obtain ⟨h1a, h1b⟩ := validStrb_facts h1
    obtain ⟨h2a, h2b⟩ := validI32b_facts h2
    have hs := ReadString_ok p.1 h1a (by omega)
    have hi := ReadI32_ok p.2 h2a h2b
    have c1 := ReadsOk.comp ReadI32
      (fun v => readMapPairs rest.length (mapInsert acc p.1 v)) hi
      (ih h3 (mapInsert acc p.1 p.2))
    have c2 := ReadsOk.comp ReadString
      (fun k => DecM.bind ReadI32
        (fun v => readMapPairs rest.length (mapInsert acc k v))) hs c1
    have hfold : foldIns acc (p :: rest) = foldIns (mapInsert acc p.1 p.2) rest := rfl
    rw [show (p :: rest).length = rest.length + 1 from rfl, hfold]
    simpa [readMapPairs, encPair, List.append_assoc] using c2

theorem readMapStringInt_ok (ps : List (List Nat × Int))
    (hv : validPairsb ps = true) (hlen : ps.length < 2147483648)
    (hP : (encMapBody ps).length < 4294967296) :
    ReadsOk (encMap ps) readMapStringInt (foldIns [] ps) := by
  intro pre post
  have hn := ReadI32_ok (ps.length : Int) (by omega) (by exact_mod_cast hlen)
  have hp := readMapPairs_ok ps hv []
  have hp2 : ReadsOk ((ps.map encPair).flatten)
      (readMapPairs ((ps.length : Int)).toNat []) (foldIns [] ps) := by
    simpa using hp
  have hbody : ReadsOk (encMapBody ps)
      (DecM.bind ReadI32 fun n => readMapPairs n.toNat []) (foldIns [] ps) := by
    have := ReadsOk.comp ReadI32 (fun n => readMapPairs n.toNat []) hn hp2
    simpa [encMapBody, i32bytes] using this
  have hdata : pre ++ (encMap ps ++ post) =
      pre ++ (u16be ((rversStreamerInfo % 65536)).toNat ++
        (u32be (encMapBody ps).length ++ (encMapBody ps ++ post))) := by
    simp [encMap, frameBytes, List.append_assoc]
  unfold readMapStringInt
  rw [hdata]
  have hrv := readVersion_at mapTypename pre (encMapBody ps ++ post)
    ((rversStreamerInfo % 65536)).toNat (encMapBody ps).length (by decide) hP
  have hbd := ReadsOk.shift6 hbody pre (u16be ((rversStreamerInfo % 65536)).toNat)
    (u32be (encMapBody ps).length) post rfl rfl
  have hsub : pre.length + 6 + (encMapBody ps).length - (pre.length + 6) =
      (encMapBody ps).length := by omega
  simp only [hrv]
  rw [if_neg (show ¬(toI16 ((rversStreamerInfo % 65536)).toNat ≠ rversStreamerInfo)
    by decide)]
  simp only [hbd]
  simp only [RBuffer.checkByteCount]
  simp [hsub, encMap, frameBytes_length, Nat.add_assoc]
  omega

theorem ReadsOk.shift1 {α : Type} {enc : List Nat} {m : DecM α} {v : α}
    (h : ReadsOk enc m v) (pre mid post : List Nat) (k : Nat)
    (hk : mid.length = k) :
    m ⟨pre ++ (mid ++ (enc ++ post)), pre.length + k, none⟩ =
      .ret v ⟨pre ++ (mid ++ (enc ++ post)),
              pre.length + k + enc.length, none⟩ := by
  have k1 := h (pre ++ mid) post
  simp only [List.append_assoc, List.length_append, hk] at k1
  exact k1

theorem ReadsOk.shift2 {α : Type} {enc : List Nat} {m : DecM α} {v : α}
    (h : ReadsOk enc m v) (pre mid1 mid2 post : List Nat) (k1 k2 : Nat)
    (hk1 : mid1.length = k1) (hk2 : mid2.length = k2) :
    m ⟨pre ++ (mid1 ++ (mid2 ++ (enc ++ post))), pre.length + k1 + k2, none⟩ =
      .ret v ⟨pre ++ (mid1 ++ (mid2 ++ (enc ++ post))),
              pre.length + k1 + k2 + enc.length, none⟩ := by
  have k0 := h (pre ++ (mid1 ++ mid2)) post
  simp only [List.append_assoc, List.length_append, hk1, hk2] at k0
  rw [← Nat.add_assoc] at k0
  exact k0

theorem factoryGet_tformula : factoryGet tformulaName = some (fun _ => newFormula) := rfl

theorem foldIns_nil_distinct (ps : List (List Nat × Int))
    (h : distinctKeysb ps = true) : foldIns [] ps = ps := by
  have := foldIns_distinct ps [] h (fun p _ => rfl)
  simpa using this

mutual

theorem UnmarshalROOT_ok (f : Formula) (hv : Formula.validb f = true)
    (fuel : Nat) (hfuel : Formula.depth f ≤ fuel) (g : Formula) :
    ReadsOk (encFormula f) (Formula.UnmarshalROOT fuel g) f := by
  match f with
  | .mk nm cp aps ps fm nd lp vz =>
    have hv2 := hv
    simp only [Formula.validb, Bool.and_eq_true, and_assoc, decide_eq_true_eq,
      List.all_eq_true] at hv2
    obtain ⟨h1, h2, h3, h4, h5, h6, h7, h8, h9, h10, h11, h12, h13, h14, h15⟩ := hv2
    have h4b : ∀ x ∈ cp, x < 18446744073709551616 := by
      intro x hx
      simpa using h4 x hx
    obtain ⟨hna, hnb⟩ := validStrb_facts h1
    obtain ⟨hta, htb⟩ := validStrb_facts h2
    obtain ⟨hfa, hfb⟩ := validStrb_facts h10
    obtain ⟨hia, hib⟩ := validI32b_facts h11
    have hfuel2 : depthList lp ≤ fuel := by
      simpa [Formula.depth] using hfuel
    have hNamed := NamedUnmarshalROOT_ok nm g.named hna hnb hta htb h3
    have hF64 := ReadStdVectorF64_ok cp h4b h5
    have hB1 := ReadBool_ok aps
    have hMap := readMapStringInt_ok ps h7 h8 h9
    rw [foldIns_nil_distinct ps h6] at hMap
    have hStr := ReadString_ok fm hfa (by omega)
    have hI := ReadI32_ok nd hia hib
    have hVec := readStdVectorObjP_ok lp h14 h12 h13 fuel hfuel2
    have hB2 := ReadBool_ok vz
    have c8 := ReadsOk.comp ReadBool
      (fun vz2 => pure (Formula.mk nm cp aps ps fm nd lp vz2)) hB2
      (readsOk_pure (Formula.mk nm cp aps ps fm nd lp vz))
    have c7 := ReadsOk.comp (readStdVectorObjP fuel)
      (fun lp2 => DecM.bind ReadBool
        (fun vz2 => pure (Formula.mk nm cp aps ps fm nd lp2 vz2))) hVec c8
    have c6 := ReadsOk.comp ReadI32
      (fun nd2 => DecM.bind (readStdVectorObjP fuel)
        (fun lp2 => DecM.bind ReadBool
          (fun vz2 => pure (Formula.mk nm cp aps ps fm nd2 lp2 vz2)))) hI c7
    have c5 := ReadsOk.comp ReadString
      (fun fm2 => DecM.bind ReadI32
        (fun nd2 => DecM.bind (readStdVectorObjP fuel)
          (fun lp2 => DecM.bind ReadBool
            (fun vz2 => pure (Formula.mk nm cp aps ps fm2 nd2 lp2 vz2))))) hStr c6
    have c4 := ReadsOk.comp readMapStringInt
      (fun ps2 => DecM.bind ReadString
        (fun fm2 => DecM.bind ReadI32
          (fun nd2 => DecM.bind (readStdVectorObjP fuel)
            (fun lp2 => DecM.bind ReadBool
              (fun vz2 => pure (Formula.mk nm cp aps ps2 fm2 nd2 lp2 vz2))))))
      hMap c5
    have c3 := ReadsOk.comp ReadBool
      (fun aps2 => DecM.bind readMapStringInt
        (fun ps2 => DecM.bind ReadString
          (fun fm2 => DecM.bind ReadI32
            (fun nd2 => DecM.bind (readStdVectorObjP fuel)
              (fun lp2 => DecM.bind ReadBool
                (fun vz2 => pure (Formula.mk nm cp aps2 ps2 fm2 nd2 lp2 vz2)))))))
      hB1 c4
    have c2 := ReadsOk.comp ReadStdVectorF64
      (fun cp2 => DecM.bind ReadBool
        (fun aps2 => DecM.bind readMapStringInt
          (fun ps2 => DecM.bind ReadString
            (fun fm2 => DecM.bind ReadI32
              (fun nd2 => DecM.bind (readStdVectorObjP fuel)
                (fun lp2 => DecM.bind ReadBool
                  (fun vz2 => pure (Formula.mk nm cp2 aps2 ps2 fm2 nd2 lp2 vz2))))))))
      hF64 c3
    have c1 := ReadsOk.comp (Named.UnmarshalROOT g.named)
      (fun nm2 => DecM.bind ReadStdVectorF64
        (fun cp2 => DecM.bind ReadBool
          (fun aps2 => DecM.bind readMapStringInt
            (fun ps2 => DecM.bind ReadString
              (fun fm2 => DecM.bind ReadI32
                (fun nd2 => DecM.bind (readStdVectorObjP fuel)
                  (fun lp2 => DecM.bind ReadBool
                    (fun vz2 => pure (Formula.mk nm2 cp2 aps2 ps2 fm2 nd2 lp2 vz2)))))))))
      hNamed c2
    have hbody : ReadsOk (encFormulaPayload (Formula.mk nm cp aps ps fm nd lp vz))
        (DecM.bind (Named.UnmarshalROOT g.named)
          (fun nm2 => DecM.bind ReadStdVectorF64
            (fun cp2 => DecM.bind ReadBool
              (fun aps2 => DecM.bind readMapStringInt
                (fun ps2 => DecM.bind ReadString
                  (fun fm2 => DecM.bind ReadI32
                    (fun nd2 => DecM.bind (readStdVectorObjP fuel)
                      (fun lp2 => DecM.bind ReadBool
                        (fun vz2 =>
                          pure (Formula.mk nm2 cp2 aps2 ps2 fm2 nd2 lp2 vz2))))))))))
        (Formula.mk nm cp aps ps fm nd lp vz) := by
      simpa [encFormulaPayload] using c1
    intro pre post
    have hdata : pre ++ (encFormula (Formula.mk nm cp aps ps fm nd lp vz) ++ post) =
        pre ++ (u16be ((rversFormula % 65536)).toNat ++
          (u32be (encFormulaPayload (Formula.mk nm cp aps ps fm nd lp vz)).length ++
            (encFormulaPayload (Formula.mk nm cp aps ps fm nd lp vz) ++ post))) := by
      simp [encFormula, frameBytes, List.append_assoc]
    unfold Formula.UnmarshalROOT
    rw [hdata]
    have hrv := readVersion_at tformulaName pre
      (encFormulaPayload (Formula.mk nm cp aps ps fm nd lp vz) ++ post)
      ((rversFormula % 65536)).toNat
      (encFormulaPayload (Formula.mk nm cp aps ps fm nd lp vz)).length
      (by decide) h15
    have hbd := ReadsOk.shift6 hbody pre (u16be ((rversFormula % 65536)).toNat)
      (u32be (encFormulaPayload (Formula.mk nm cp aps ps fm nd lp vz)).length)
      post rfl rfl
    have hsub : pre.length + 6 +
        (encFormulaPayload (Formula.mk nm cp aps ps fm nd lp vz)).length -
        (pre.length + 6) =
        (encFormulaPayload (Formula.mk nm cp aps ps fm nd lp vz)).length := by
      omega
    simp only [hrv]
    rw [if_neg (show ¬(rversFormula < toI16 ((rversFormula % 65536)).toNat)
      by decide)]
    rw [if_neg (show ¬(toI16 ((rversFormula % 65536)).toNat < 12 ∨
      13 < toI16 ((rversFormula % 65536)).toNat) by decide)]
    simp only [hbd]
    simp only [RBuffer.checkByteCount]
    simp [hsub, encFormula, frameBytes_length, Nat.add_assoc] <;> omega
termination_by (sizeOf f, 3)

theorem readStdVectorObjP_ok (vs : List (Option Formula))
    (hv : validObjListb vs = true) (hlen : vs.length < 2147483648)
    (hP : (i32bytes vs.length ++ encObjList vs).length < 4294967296)
    (fuel : Nat) (hfuel : depthList vs ≤ fuel) :
    ReadsOk (encVecObjP vs) (readStdVectorObjP fuel) vs := by
  have hn := ReadI32_ok (vs.length : Int) (by omega) (by exact_mod_cast hlen)
  have hl := readObjList_ok vs hv fuel hfuel
  have hl2 : ReadsOk (encObjList vs)
      (readObjList fuel ((vs.length : Int)).toNat) vs := by
    simpa using hl
  have hbody : ReadsOk (i32bytes vs.length ++ encObjList vs)
      (DecM.bind ReadI32 fun n => readObjList fuel n.toNat) vs := by
    have := ReadsOk.comp ReadI32 (fun n => readObjList fuel n.toNat) hn hl2
    simpa using this
  intro pre post
  have hdata : pre ++ (encVecObjP vs ++ post) =
      pre ++ (u16be ((rversStreamerInfo % 65536)).toNat ++
        (u32be (i32bytes vs.length ++ encObjList vs).length ++
          ((i32bytes vs.length ++ encObjList vs) ++ post))) := by
    simp [encVecObjP, frameBytes, List.append_assoc]
  unfold readStdVectorObjP
  rw [hdata]
  have hrv := readVersion_at vecTypename pre
    ((i32bytes vs.length ++ encObjList vs) ++ post)
    ((rversStreamerInfo % 65536)).toNat
    (i32bytes vs.length ++ encObjList vs).length (by decide) hP
  have hbd := ReadsOk.shift6 hbody pre (u16be ((rversStreamerInfo % 65536)).toNat)
    (u32be (i32bytes vs.length ++ encObjList vs).length) post rfl rfl
  have hsub : pre.length + 6 + (i32bytes vs.length ++ encObjList vs).length -
      (pre.length + 6) = (i32bytes vs.length ++ encObjList vs).length := by omega
  simp only [hrv]
  rw [if_neg (show ¬(toI16 ((rversStreamerInfo % 65536)).toNat ≠ rversStreamerInfo)
    by decide)]
  simp only [hbd]
  simp only [RBuffer.checkByteCount]
  simp [hsub, encVecObjP, frameBytes_length, Nat.add_assoc] <;> omega
termination_by (sizeOf vs, 2)

theorem readObjList_ok (vs : List (Option Formula))
    (hv : validObjListb vs = true) (fuel : Nat) (hfuel : depthList vs ≤ fuel) :
    ReadsOk (encObjList vs) (readObjList fuel vs.length) vs := by
  match vs with
  | [] =>
    intro pre post
    simp [readObjList, encObjList, Pure.pure]
  | o :: rest =>
    have hv2 : validObjb o = true ∧ validObjListb rest = true := by
      simpa [validObjListb, Bool.and_eq_true] using hv
    have hf2 : depthObj o ≤ fuel ∧ depthList rest ≤ fuel := by
      simpa [depthList, Nat.max_le] using hfuel
    have hx1 := ReadObjectAny_ok o hv2.1 fuel hf2.1
    have hx2 := readObjList_ok rest hv2.2 fuel hf2.2
    have c1 := ReadsOk.comp (readObjList fuel rest.length)
      (fun rest2 => pure (o :: rest2)) hx2 (readsOk_pure (o :: rest))
    have c2 := ReadsOk.comp (ReadObjectAny fuel)
      (fun o2 => DecM.bind (readObjList fuel rest.length)
        (fun rest2 => pure (o2 :: rest2))) hx1 c1
    have hlen : (o :: rest).length = rest.length + 1 := rfl
    rw [hlen]
    simpa [readObjList, encObjList] using c2
termination_by (sizeOf vs, 1)

theorem ReadObjectAny_ok (o : Option Formula) (hv : validObjb o = true)
    (fuel : Nat) (hfuel : depthObj o ≤ fuel) :
    ReadsOk (encObjAny o) (ReadObjectAny fuel) o := by
  match o with
  | none =>
    intro pre post
    have henc : encObjAny none = [0] := by simp [encObjAny]
    rw [henc]
    unfold ReadObjectAny
    have hg : (pre ++ ([0] ++ post))[pre.length]? = some 0 := by
      rw [List.getElem?_append_right (Nat.le_refl _)]
      simp
    rw [readU8_eq _ _ _ hg]
    simp
  | some f =>
    have hdf : Formula.depth f + 1 ≤ fuel := by
      simpa [depthObj] using hfuel
    match fuel with
    | 0 => omega
    | fuel2 + 1 =>
      have hvf : Formula.validb f = true := by simpa [validObjb] using hv
      have hrec := UnmarshalROOT_ok f hvf fuel2 (by omega) newFormula
      intro pre post
      have henc : encObjAny (some f) =
          [1] ++ (encStr tformulaName ++ encFormula f) := by
        simp [encObjAny, encFormula]
      rw [henc]
      have hdata : pre ++ (([1] ++ (encStr tformulaName ++ encFormula f)) ++ post)
          = pre ++ ([1] ++ (encStr tformulaName ++ (encFormula f ++ post))) := by
        simp [List.append_assoc]
      rw [hdata]
      unfold ReadObjectAny
      have hg : (pre ++ ([1] ++ (encStr tformulaName ++ (encFormula f ++ post))))[pre.length]?
          = some 1 := by
        rw [List.getElem?_append_right (Nat.le_refl _)]
        simp
      rw [readU8_eq _ _ _ hg]
      have hstr := ReadString_ok tformulaName (by decide) (by decide)
      have hs1 := ReadsOk.shift1 hstr pre [1] (encFormula f ++ post) 1 rfl
      have hs2 := ReadsOk.shift2 hrec pre [1] (encStr tformulaName) post 1
        ((encStr tformulaName).length) rfl rfl
      simp only [hs1]
      simp only [factoryGet_tformula]
      simp only [hs2]
      simp [List.length_append, Nat.add_assoc] <;> omega
termination_by (sizeOf o, 0)

end

/-! Writer-side lemmas: with no pending error, each write appends its pure
encoding, and endRecord patches the reserved length field in place. -/

theorem writeU8_data (w : WBuffer) (hw : w.err = none) (b : Nat) :
    w.writeU8 b = ⟨w.data ++ [b % 256], none⟩ := by
  simp [WBuffer.writeU8, hw]

theorem WriteBool_data (w : WBuffer) (hw : w.err = none) (b : Bool) :
    w.WriteBool b = ⟨w.data ++ encBool b, none⟩ := by
  cases b <;> simp [WBuffer.WriteBool, writeU8_data w hw, encBool]

theorem WriteI32_data (w : WBuffer) (hw : w.err = none) (v : Int) :
    w.WriteI32 v = ⟨w.data ++ i32bytes v, none⟩ := by
  simp [WBuffer.WriteI32, hw]

theorem WriteString_data (w : WBuffer) (hw : w.err = none) (s : List Nat) :
    w.WriteString s = ⟨w.data ++ encStr s, none⟩ := by
  simp [WBuffer.WriteString, hw, encStr]

theorem writeF64List_data : ∀ (xs : List Nat) (w : WBuffer), w.err = none →
    w.writeF64List xs = ⟨w.data ++ (xs.map u64be).flatten, none⟩ := by
  intro xs
  induction xs with
  | nil => intro w hw; simp [WBuffer.writeF64List]; cases w; simp_all
  | cons x rest ih =>
    intro w hw
    have h1 : w.writeU64 x = ⟨w.data ++ u64be x, none⟩ := by
      simp [WBuffer.writeU64, hw]
    simp [WBuffer.writeF64List, h1, ih ⟨w.data ++ u64be x, none⟩ rfl,
      List.append_assoc]

theorem WriteStdVectorF64_data (w : WBuffer) (hw : w.err = none) (xs : List Nat) :
    w.WriteStdVectorF64 xs = ⟨w.data ++ encF64vec xs, none⟩ := by
  have h1 := WriteI32_data w hw (xs.length : Int)
  have h2 := writeF64List_data xs (w.WriteI32 (xs.length : Int)) (by rw [h1])
  rw [h1] at h2
  simp [WBuffer.WriteStdVectorF64, hw, h1, h2, encF64vec, List.append_assoc]

theorem WriteVersion_data (w : WBuffer) (hw : w.err = none) (v : Int) :
    w.WriteVersion v =
      (⟨w.data ++ (u16be ((v % 65536)).toNat ++ [0, 0, 0, 0]), none⟩,
       w.data.length + 6) := by
  simp [WBuffer.WriteVersion, hw]

theorem SetByteCount_spec (base hd P : List Nat) (hhd : hd.length = 2)
    (cls : List Nat) :
    WBuffer.SetByteCount ⟨base ++ (hd ++ ([0, 0, 0, 0] ++ P)), none⟩
      (base.length + 6) cls =
      (⟨base ++ (hd ++ (u32be P.length ++ P)), none⟩, P.length) := by
  have hlen : (base ++ (hd ++ ([0, 0, 0, 0] ++ P))).length =
      base.length + 6 + P.length := by
    simp only [List.length_append, hhd, List.length_cons, List.length_nil]
    omega
  have htake : (base ++ (hd ++ ([0, 0, 0, 0] ++ P))).take (base.length + 6 - 4) =
      base ++ hd := by
    have he : base ++ (hd ++ ([0, 0, 0, 0] ++ P)) =
        (base ++ hd) ++ ([0, 0, 0, 0] ++ P) := by simp
    rw [he]
    have h2 : base.length + 6 - 4 = (base ++ hd).length := by
      simp only [List.length_append, hhd]
      omega
    rw [h2, List.take_left]
  have hdrop : (base ++ (hd ++ ([0, 0, 0, 0] ++ P))).drop (base.length + 6) = P := by
    have he : base ++ (hd ++ ([0, 0, 0, 0] ++ P)) =
        (base ++ (hd ++ [0, 0, 0, 0])) ++ P := by simp
    rw [he]
    have h2 : base.length + 6 = (base ++ (hd ++ [0, 0, 0, 0])).length := by
      simp only [List.length_append, hhd, List.length_cons, List.length_nil]
    rw [h2, List.drop_left]
  have hsub : base.length + 6 + P.length - (base.length + 6) = P.length := by omega
  unfold WBuffer.SetByteCount
  simp only [Option.isSome_none, Bool.false_eq_true, if_false, hlen, htake,
    hdrop, hsub]
  simp only [List.append_assoc]

theorem writePairs_data : ∀ (ps : List (List Nat × Int)) (w : WBuffer),
    w.err = none →
    writePairs w ps = ⟨w.data ++ (ps.map encPair).flatten, none⟩ := by
  intro ps
  induction ps with
  | nil =>
    intro w hw
    cases w
    simp_all [writePairs]
  | cons p rest ih =>
    intro w hw
    obtain ⟨k, v⟩ := p
    have h1 := WriteString_data w hw k
    have h2 := WriteI32_data ⟨w.data ++ encStr k, none⟩ rfl v
    have h3 := ih ⟨w.data ++ encStr k ++ i32bytes v, none⟩ rfl
    simp only [List.append_assoc] at h3
    simp [writePairs, h1, h2, h3, encPair, List.append_assoc]

theorem writeMapStringInt_data (w : WBuffer) (hw : w.err = none)
    (m : List (List Nat × Int)) :
    writeMapStringInt w m = ⟨w.data ++ encMap m, none⟩ := by
  unfold writeMapStringInt
  simp only [hw, Option.isSome_none, Bool.false_eq_true, if_false]
  simp only [WriteVersion_data w hw rversStreamerInfo]
  have s2 := WriteI32_data
    ⟨w.data ++ (u16be ((rversStreamerInfo % 65536)).toNat ++ [0, 0, 0, 0]), none⟩
    rfl (m.length : Int)
  simp only [s2]
  have s3 := writePairs_data m
    ⟨w.data ++ (u16be ((rversStreamerInfo % 65536)).toNat ++ [0, 0, 0, 0]) ++
      i32bytes (m.length : Int), none⟩ rfl
  simp only [s3]
  have hmass : w.data ++ (u16be ((rversStreamerInfo % 65536)).toNat ++ [0, 0, 0, 0]) ++
      i32bytes (m.length : Int) ++ (m.map encPair).flatten =
      w.data ++ (u16be ((rversStreamerInfo % 65536)).toNat ++
        ([0, 0, 0, 0] ++ encMapBody m)) := by
    simp [encMapBody, List.append_assoc]
  rw [hmass]
  rw [SetByteCount_spec w.data (u16be ((rversStreamerInfo % 65536)).toNat)
    (encMapBody m) rfl mapTypename]
  simp [encMap, frameBytes, List.append_assoc]

theorem NamedMarshalROOT_data (nm : Named) (w : WBuffer) (hw : w.err = none) :
    Named.MarshalROOT nm w = (⟨w.data ++ encNamed nm, none⟩,
      (encStr nm.name ++ encStr nm.title).length) := by
  unfold Named.MarshalROOT
  simp only [hw, Option.isSome_none, Bool.false_eq_true, if_false]
  simp only [WriteVersion_data w hw namedVersion]
  have s2 := WriteString_data
    ⟨w.data ++ (u16be ((namedVersion % 65536)).toNat ++ [0, 0, 0, 0]), none⟩
    rfl nm.name
  simp only [s2]
  have s3 := WriteString_data
    ⟨w.data ++ (u16be ((namedVersion % 65536)).toNat ++ [0, 0, 0, 0]) ++
      encStr nm.name, none⟩ rfl nm.title
  simp only [s3]
  have hmass : w.data ++ (u16be ((namedVersion % 65536)).toNat ++ [0, 0, 0, 0]) ++
      encStr nm.name ++ encStr nm.title =
      w.data ++ (u16be ((namedVersion % 65536)).toNat ++
        ([0, 0, 0, 0] ++ (encStr nm.name ++ encStr nm.title))) := by
    simp [List.append_assoc]
  rw [hmass]
  rw [SetByteCount_spec w.data (u16be ((namedVersion % 65536)).toNat)
    (encStr nm.name ++ encStr nm.title) rfl tnamedName]
  simp [encNamed, frameBytes, List.append_assoc]

mutual

theorem MarshalROOT_data (f : Formula) (w : WBuffer) (hw : w.err = none) :
    Formula.MarshalROOT f w =
      (⟨w.data ++ encFormula f, none⟩, (encFormulaPayload f).length) := by
  match f with
  | .mk nm cp aps ps fm nd lp vz =>
    unfold Formula.MarshalROOT
    simp only [hw, Option.isSome_none, Bool.false_eq_true, if_false]
    simp only [WriteVersion_data w hw rversFormula]
    have s2 := NamedMarshalROOT_data nm
      ⟨w.data ++ (u16be ((rversFormula % 65536)).toNat ++ [0, 0, 0, 0]), none⟩ rfl
    simp only [s2]
    have s3 := WriteStdVectorF64_data
      ⟨w.data ++ (u16be ((rversFormula % 65536)).toNat ++ [0, 0, 0, 0]) ++
        encNamed nm, none⟩ rfl cp
    simp only [s3]
    have s4 := WriteBool_data
      ⟨w.data ++ (u16be ((rversFormula % 65536)).toNat ++ [0, 0, 0, 0]) ++
        encNamed nm ++ encF64vec cp, none⟩ rfl aps
    simp only [s4]
    have s5 := writeMapStringInt_data
      ⟨w.data ++ (u16be ((rversFormula % 65536)).toNat ++ [0, 0, 0, 0]) ++
        encNamed nm ++ encF64vec cp ++ encBool aps, none⟩ rfl ps
    simp only [s5]
    have s6 := WriteString_data
      ⟨w.data ++ (u16be ((rversFormula % 65536)).toNat ++ [0, 0, 0, 0]) ++
        encNamed nm ++ encF64vec cp ++ encBool aps ++ encMap ps, none⟩ rfl fm
    simp only [s6]
    have s7 := WriteI32_data
      ⟨w.data ++ (u16be ((rversFormula % 65536)).toNat ++ [0, 0, 0, 0]) ++
        encNamed nm ++ encF64vec cp ++ encBool aps ++ encMap ps ++
        encStr fm, none⟩ rfl nd
    simp only [s7]
    have s8 := writeStdVectorObjP_data lp
      ⟨w.data ++ (u16be ((rversFormula % 65536)).toNat ++ [0, 0, 0, 0]) ++
        encNamed nm ++ encF64vec cp ++ encBool aps ++ encMap ps ++
        encStr fm ++ i32bytes nd, none⟩ rfl
    simp only [s8]
    have s9 := WriteBool_data
      ⟨w.data ++ (u16be ((rversFormula % 65536)).toNat ++ [0, 0, 0, 0]) ++
        encNamed nm ++ encF64vec cp ++ encBool aps ++ encMap ps ++
        encStr fm ++ i32bytes nd ++ encVecObjP lp, none⟩ rfl vz
    simp only [s9]
    have hmass : w.data ++ (u16be ((rversFormula % 65536)).toNat ++ [0, 0, 0, 0]) ++
        encNamed nm ++ encF64vec cp ++ encBool aps ++ encMap ps ++
        encStr fm ++ i32bytes nd ++ encVecObjP lp ++ encBool vz =
        w.data ++ (u16be ((rversFormula % 65536)).toNat ++
          ([0, 0, 0, 0] ++ encFormulaPayload (Formula.mk nm cp aps ps fm nd lp vz))) := by
      simp [encFormulaPayload, List.append_assoc]
    rw [hmass]
    rw [SetByteCount_spec w.data (u16be ((rversFormula % 65536)).toNat)
      (encFormulaPayload (Formula.mk nm cp aps ps fm nd lp vz)) rfl tformulaName]
    simp [encFormula, frameBytes, List.append_assoc]
termination_by (sizeOf f, 3)

theorem writeStdVectorObjP_data (vs : List (Option Formula)) (w : WBuffer)
    (hw : w.err = none) :
    writeStdVectorObjP w vs = ⟨w.data ++ encVecObjP vs, none⟩ := by
  unfold writeStdVectorObjP
  simp only [hw, Option.isSome_none, Bool.false_eq_true, if_false]
  simp only [WriteVersion_data w hw rversStreamerInfo]
  have s2 := WriteI32_data
    ⟨w.data ++ (u16be ((rversStreamerInfo % 65536)).toNat ++ [0, 0, 0, 0]), none⟩
    rfl (vs.length : Int)
  simp only [s2]
  have s3 := writeObjList_data vs
    ⟨w.data ++ (u16be ((rversStreamerInfo % 65536)).toNat ++ [0, 0, 0, 0]) ++
      i32bytes (vs.length : Int), none⟩ rfl
  simp only [s3]
  have hmass : w.data ++ (u16be ((rversStreamerInfo % 65536)).toNat ++ [0, 0, 0, 0]) ++
      i32bytes (vs.length : Int) ++ encObjList vs =
      w.data ++ (u16be ((rversStreamerInfo % 65536)).toNat ++
        ([0, 0, 0, 0] ++ (i32bytes (vs.length : Int) ++ encObjList vs))) := by
    simp [List.append_assoc]
  rw [hmass]
  rw [SetByteCount_spec w.data (u16be ((rversStreamerInfo % 65536)).toNat)
    (i32bytes (vs.length : Int) ++ encObjList vs) rfl vecTypename]
  simp [encVecObjP, frameBytes, List.append_assoc]
termination_by (sizeOf vs, 2)

theorem writeObjList_data (vs : List (Option Formula)) (w : WBuffer)
    (hw : w.err = none) :
    writeObjList w vs = ⟨w.data ++ encObjList vs, none⟩ := by
  match vs with
  | [] =>
    cases w
    simp_all [writeObjList, encObjList]
  | o :: rest =>
    have h1 := WriteObjectAny_data o w hw
    have h2 := writeObjList_data rest ⟨w.data ++ encObjAny o, none⟩ rfl
    simp only [List.append_assoc] at h2
    simp [writeObjList, h1, h2, encObjList, List.append_assoc]
termination_by (sizeOf vs, 1)

theorem WriteObjectAny_data (o : Option Formula) (w : WBuffer)
    (hw : w.err = none) :
    WriteObjectAny w o = ⟨w.data ++ encObjAny o, none⟩ := by
  match o with
  | none =>
    simp [WriteObjectAny, writeU8_data w hw 0, encObjAny]
  | some f =>
    have h1 := writeU8_data w hw 1
    have h2 := WriteString_data ⟨w.data ++ [1 % 256], none⟩ rfl tformulaName
    have h3 := MarshalROOT_data f
      ⟨w.data ++ [1 % 256] ++ encStr tformulaName, none⟩ rfl
    simp at h1 h2 h3
    simp [WriteObjectAny, h1, h2, h3, encObjAny, encFormula, List.append_assoc]
termination_by (sizeOf o, 0)

end

/-! Claim theorems. -/

/-- C1: for every valid Formula value f (format version within the supported
range, all fields representable: strings of bytes with lengths within int32,
float64 bit patterns, int32 fields in range, a distinct-key parameter map,
and frame payloads that fit the 32-bit length field), decoding with
UnmarshalROOT the bytes produced by MarshalROOT (run on a fresh buffer)
yields a Formula equal to f in every field: named, clingParams,
allParamsSet, params, formula, ndim, linearParts and vectorized, since the
returned value is f itself; the final cursor sits at the end of the record
and no error is set. The fuel parameter is the modelling bound on
polymorphic nesting depth; any fuel of at least the depth of f works. -/
theorem c1_formula_roundtrip (f : Formula) (hv : Formula.validb f = true)
    (fuel : Nat) (hfuel : Formula.depth f ≤ fuel) :
    Formula.UnmarshalROOT fuel newFormula
        ⟨(Formula.MarshalROOT f ⟨[], none⟩).1.data, 0, none⟩ =
      .ret f ⟨(Formula.MarshalROOT f ⟨[], none⟩).1.data,
              (encFormula f).length, none⟩ := by
  rw [MarshalROOT_data f ⟨[], none⟩ rfl]
  have h := UnmarshalROOT_ok f hv fuel hfuel newFormula [] []
  simpa using h

/-- C2: for every record whose frame version exceeds the supported maximum
(rvers.Formula = 13) decoding panics with the unsupported-version error, and
for every record whose frame version is below the floor 12 decoding panics
with the obsolete-version error; the outcome is the same for every payload,
so the failure occurs before any field of the payload is read. -/
theorem c2_version_gating (vb c : Nat) (hvb : vb < 65536) (hc : c < 4294967296)
    (payload : List Nat) (g : Formula) (fuel : Nat) :
    (rversFormula < toI16 vb →
      Formula.UnmarshalROOT fuel g ⟨u16be vb ++ (u32be c ++ payload), 0, none⟩ =
        .panicked (.unsupportedVersion (toI16 vb) rversFormula)) ∧
    (toI16 vb < 12 →
      Formula.UnmarshalROOT fuel g ⟨u16be vb ++ (u32be c ++ payload), 0, none⟩ =
        .panicked (.obsoleteVersion (toI16 vb))) := by
  have hrv := readVersion_at tformulaName [] payload vb c hvb hc
  simp only [List.nil_append, List.length_nil] at hrv
  constructor
  · intro hgt
    unfold Formula.UnmarshalROOT
    simp [hrv, hgt]
  · intro hlt
    have h1 : ¬(rversFormula < toI16 vb) := by
      unfold rversFormula
      omega
    unfold Formula.UnmarshalROOT
    simp [hrv, h1, hlt]

theorem c2_version_gating_witness :
    ((14 : Nat) < 65536 ∧ (0 : Nat) < 4294967296 ∧ rversFormula < toI16 14 ∧
      Formula.UnmarshalROOT 1 newFormula ⟨u16be 14 ++ (u32be 0 ++ []), 0, none⟩ =
        .panicked (.unsupportedVersion (toI16 14) rversFormula)) ∧
    ((3 : Nat) < 65536 ∧ toI16 3 < 12 ∧
      Formula.UnmarshalROOT 1 newFormula ⟨u16be 3 ++ (u32be 0 ++ []), 0, none⟩ =
        .panicked (.obsoleteVersion (toI16 3))) :=
  ⟨⟨by decide, by decide, by decide,
    (c2_version_gating 14 0 (by decide) (by decide) [] newFormula 1).1 (by decide)⟩,
   ⟨by decide, by decide,
    (c2_version_gating 3 0 (by decide) (by decide) [] newFormula 1).2 (by decide)⟩⟩

theorem splitSemi_append (name rest : List Nat) (h : 59 ∉ name) :
    splitSemi (name ++ 59 :: rest) = (name, some rest) := by
  induction name with
  | nil => simp [splitSemi]
  | cons c cs ih =>
    have hc : c ≠ 59 := by
      intro e
      exact h (by simp [e])
    have h2 : 59 ∉ cs := fun e => h (by simp [e])
    simp [splitSemi, hc, ih h2]

/-- C3: for every directory and every semicolon-free name, resolving the
query name;0 returns not-found, whatever keys the directory holds: cycle 0
is the reserved invalid marker and never matches any stored key. -/
theorem c3_cycle_zero (dir : List Key) (name : List Nat) (h : 59 ∉ name) :
    Directory.Get dir (name ++ [59, 48]) = none := by
  unfold Directory.Get decodeNameCycle
  have hs : splitSemi (name ++ [59, 48]) = (name, some [48]) := by
    have := splitSemi_append name [48] h
    simpa using this
  rw [hs]
  simp [parseDec, parseDecAux, resolveCycle]

def treeKey : Key := ⟨[116, 114, 101, 101], [], [84, 84, 114, 101, 101], 1, 0, 0, 0⟩

theorem c3_cycle_zero_witness : (59 : Nat) ∉ [116, 114, 101, 101] ∧
    Directory.Get [treeKey] ([116, 114, 101, 101] ++ [59, 48]) = none :=
  ⟨by decide, c3_cycle_zero [treeKey] [116, 114, 101, 101] (by decide)⟩

theorem maxCycleKey_cases (dir : List Key) (name : List Nat) :
    (maxCycleKey dir name = none ∧ ∀ k ∈ dir, k.name ≠ name) ∨
    (∃ k, maxCycleKey dir name = some k ∧ k ∈ dir ∧ k.name = name ∧
      ∀ k2 ∈ dir, k2.name = name → k2.cycle ≤ k.cycle) := by
  induction dir with
  | nil =>
    left
    exact ⟨rfl, by simp⟩
  | cons a rest ih =>
    by_cases ha : a.name = name
    · right
      rcases ih with ⟨hn, hall⟩ | ⟨b, hb, hbm, hbn, hmax⟩
      · refine ⟨a, ?_, by simp, ha, ?_⟩
        · simp [maxCycleKey, ha, hn]
        · intro k2 hk2 hk2n
          rcases List.mem_cons.mp hk2 with h | h
          · subst h
            exact Nat.le_refl _
          · exact absurd hk2n (hall k2 h)
      · by_cases hc : b.cycle < a.cycle
        · refine ⟨a, ?_, by simp, ha, ?_⟩
          · simp [maxCycleKey, ha, hb, hc]
          · intro k2 hk2 hk2n
            rcases List.mem_cons.mp hk2 with h | h
            · subst h
              exact Nat.le_refl _
            · exact Nat.le_trans (hmax k2 h hk2n) (Nat.le_of_lt hc)
        · refine ⟨b, ?_, by simp [hbm], hbn, ?_⟩
          · simp [maxCycleKey, ha, hb, hc]
          · intro k2 hk2 hk2n
            rcases List.mem_cons.mp hk2 with h | h
            · subst h
              omega
            · exact hmax k2 h hk2n
    · rcases ih with ⟨hn, hall⟩ | ⟨b, hb, hbm, hbn, hmax⟩
      · left
        refine ⟨by simp [maxCycleKey, ha, hn], ?_⟩
        intro k hk
        rcases List.mem_cons.mp hk with h | h
        · subst h
          exact ha
        · exact hall k h
      · right
        refine ⟨b, by simp [maxCycleKey, ha, hb], by simp [hbm], hbn, ?_⟩
        intro k2 hk2 hk2n
        rcases List.mem_cons.mp hk2 with h | h
        · subst h
          exact absurd hk2n ha
        · exact hmax k2 h hk2n

/-- C4: for every directory containing at least one key under a name, and
every requested cycle strictly greater than every cycle stored under that
name, resolve returns a key under that name carrying the greatest stored
cycle (the out-of-range request falls back to the latest). -/
theorem c4_cycle_fallback (dir : List Key) (name : List Nat) (c : Nat)
    (hex : ∃ k0, k0 ∈ dir ∧ k0.name = name)
    (hgt : ∀ k ∈ dir, k.name = name → k.cycle < c) :
    ∃ k, resolveCycle dir name (some c) = some k ∧ k ∈ dir ∧ k.name = name ∧
      ∀ k2 ∈ dir, k2.name = name → k2.cycle ≤ k.cycle := by
  obtain ⟨k0, hk0m, hk0n⟩ := hex
  rcases maxCycleKey_cases dir name with ⟨_, hall⟩ | ⟨b, hb, hbm, hbn, hmax⟩
  · exact absurd hk0n (hall k0 hk0m)
  · refine ⟨b, ?_, hbm, hbn, hmax⟩
    have hfind : dir.find? (fun k => k.name == name && k.cycle == c) = none := by
      rw [List.find?_eq_none]
      intro k hk
      by_cases hn : k.name = name
      · have := hgt k hk hn
        simp [hn]
        omega
      · simp [hn]
    have hc0 : c ≠ 0 := by
      have := hgt k0 hk0m hk0n
      omega
    cases c with
    | zero => exact absurd rfl hc0
    | succ c2 =>
      have hbc : b.cycle < c2 + 1 := hgt b hbm hbn
      simp [resolveCycle, hfind, hb, hbc]

theorem c4_cycle_fallback_witness :
    (∃ k0, k0 ∈ [treeKey] ∧ k0.name = [116, 114, 101, 101]) ∧
    ∃ k, resolveCycle [treeKey] [116, 114, 101, 101] (some 9999) = some k ∧
      k ∈ [treeKey] ∧ k.name = [116, 114, 101, 101] ∧
      ∀ k2 ∈ [treeKey], k2.name = [116, 114, 101, 101] → k2.cycle ≤ k.cycle :=
  ⟨⟨treeKey, by simp, rfl⟩,
   c4_cycle_fallback [treeKey] [116, 114, 101, 101] 9999 ⟨treeKey, by simp, rfl⟩
     (by
       intro k hk hn
       simp at hk
       subst hk
       decide)⟩

def f1spec : Formula :=
  Formula.mk ⟨[65], [66]⟩ [5] true [([97], 1), ([98], -2)] [120, 43, 121] 2
    [] false

def f0spec : Formula :=
  Formula.mk ⟨[78, 79], []⟩ [7, 18446744073709551615] false [([112], 0)]
    [115, 105, 110] 1 [none, some f1spec] true

theorem c1_formula_roundtrip_witness :
    Formula.validb f0spec = true ∧ Formula.depth f0spec ≤ 2 ∧
    Formula.UnmarshalROOT 2 newFormula
        ⟨(Formula.MarshalROOT f0spec ⟨[], none⟩).1.data, 0, none⟩ =
      .ret f0spec ⟨(Formula.MarshalROOT f0spec ⟨[], none⟩).1.data,
              (encFormula f0spec).length, none⟩ := by
  have hv : Formula.validb f0spec = true := by
    simp [f0spec, f1spec, Formula.validb, validObjListb, validObjb, validStrb,
      validI32b, distinctKeysb, validPairsb, mapLookup, encMap, encMapBody,
      encPair, encStr, i32bytes, u32be, encFormulaPayload, encVecObjP,
      encObjList, encObjAny, encNamed, encF64vec, encBool, u16be, u64be,
      frameBytes, tformulaName]
  have hd : Formula.depth f0spec ≤ 2 := by
    simp [f0spec, f1spec, Formula.depth, depthList, depthObj]
  exact ⟨hv, hd, c1_formula_roundtrip f0spec hv 2 hd⟩

def mapA : List (List Nat × Int) := [([97], 1), ([98], 2)]

def mapB : List (List Nat × Int) := [([98], 2), ([97], 1)]

/-- C5 counterexample: the claim that any two runs of writeMapStringInt on
equal mappings produce byte-identical output is false: the encoder emits the
entries in whatever order the Go range statement enumerates the map, and Go
map enumeration order is unspecified and varies between runs. Two runs
whose enumerations of the equal two-entry mapping a maps-to 1, b maps-to 2
differ produce different bytes. -/
theorem c5_map_determinism_counterexample :
    ¬ ∀ (m1 m2 : List (List Nat × Int)) (w : WBuffer),
        (∀ k, mapLookup m1 k = mapLookup m2 k) →
        distinctKeysb m1 = true → distinctKeysb m2 = true →
        writeMapStringInt w m1 = writeMapStringInt w m2 := by
  intro h
  have heq : ∀ k, mapLookup mapA k = mapLookup mapB k := by
    intro k
    by_cases h1 : ([97] : List Nat) = k
    · subst h1
      decide
    · by_cases h2 : ([98] : List Nat) = k
      · subst h2
        decide
      · simp [mapA, mapB, mapLookup, h1, h2]
  have hcontra := h mapA mapB ⟨[], none⟩ heq (by decide) (by decide)
  have hne : writeMapStringInt ⟨[], none⟩ mapA ≠ writeMapStringInt ⟨[], none⟩ mapB := by
    decide
  exact hne hcontra

/-- C5 amended: the encoder is deterministic only given the enumeration
order of the entries; two runs on equal valid mappings need not be
byte-identical (see the counterexample), but both encodings decode back
cleanly to mappings with identical lookups, and byte-identical output is
obtained exactly when both runs enumerate the entries in the same order. -/
theorem c5_map_encoding_decodes_equal (m1 m2 : List (List Nat × Int))
    (heq : ∀ k, mapLookup m1 k = mapLookup m2 k)
    (h1d : distinctKeysb m1 = true) (h1p : validPairsb m1 = true)
    (h1l : m1.length < 2147483648) (h1P : (encMapBody m1).length < 4294967296)
    (h2d : distinctKeysb m2 = true) (h2p : validPairsb m2 = true)
    (h2l : m2.length < 2147483648) (h2P : (encMapBody m2).length < 4294967296) :
    ∃ d1 r1 d2 r2,
      readMapStringInt ⟨(writeMapStringInt ⟨[], none⟩ m1).data, 0, none⟩ =
        .ret d1 r1 ∧
      readMapStringInt ⟨(writeMapStringInt ⟨[], none⟩ m2).data, 0, none⟩ =
        .ret d2 r2 ∧
      r1.err = none ∧ r2.err = none ∧
      ∀ k, mapLookup d1 k = mapLookup d2 k := by
  have e1 := readMapStringInt_ok m1 h1p h1l h1P
  rw [foldIns_nil_distinct m1 h1d] at e1
  have e2 := readMapStringInt_ok m2 h2p h2l h2P
  rw [foldIns_nil_distinct m2 h2d] at e2
  have w1 := writeMapStringInt_data ⟨[], none⟩ rfl m1
  have w2 := writeMapStringInt_data ⟨[], none⟩ rfl m2
  refine ⟨m1, ⟨encMap m1, (encMap m1).length, none⟩,
    m2, ⟨encMap m2, (encMap m2).length, none⟩, ?_, ?_, rfl, rfl, heq⟩
  · rw [w1]
    have := e1 [] []
    simpa using this
  · rw [w2]
    have := e2 [] []
    simpa using this

theorem c5_map_encoding_decodes_equal_witness :
    (∀ k, mapLookup mapA k = mapLookup mapB k) ∧
    ∃ d1 r1 d2 r2,
      readMapStringInt ⟨(writeMapStringInt ⟨[], none⟩ mapA).data, 0, none⟩ =
        .ret d1 r1 ∧
      readMapStringInt ⟨(writeMapStringInt ⟨[], none⟩ mapB).data, 0, none⟩ =
        .ret d2 r2 ∧
      r1.err = none ∧ r2.err = none ∧
      ∀ k, mapLookup d1 k = mapLookup d2 k := by
  have heq : ∀ k, mapLookup mapA k = mapLookup mapB k := by
    intro k
    by_cases h1 : ([97] : List Nat) = k
    · subst h1
      decide
    · by_cases h2 : ([98] : List Nat) = k
      · subst h2
        decide
      · simp [mapA, mapB, mapLookup, h1, h2]
  exact ⟨heq, c5_map_encoding_decodes_equal mapA mapB heq (by decide) (by decide)
    (by decide) (by decide) (by decide) (by decide) (by decide) (by decide)⟩

/-- C6: on a buffer whose sticky error is already set, each codec operation
of formula.go (MarshalROOT, UnmarshalROOT, readMapStringInt,
writeMapStringInt, readStdVectorObjP, writeStdVectorObjP) is a no-op: it
returns immediately, the buffer it hands back is the very same one (so the
same error is still set and the cursor has not advanced), the write
operations write nothing, and the read operations return the zero results
nil map, nil slice and the untouched receiver. -/
theorem c6_sticky_error_noop (r : RBuffer) (w : WBuffer) (e1 e2 : Err)
    (hr : r.err = some e1) (hw : w.err = some e2) (f g : Formula)
    (m : List (List Nat × Int)) (vs : List (Option Formula)) (fuel : Nat) :
    Formula.MarshalROOT f w = (w, 0) ∧
    Formula.UnmarshalROOT fuel g r = .ret g r ∧
    readMapStringInt r = .ret [] r ∧
    writeMapStringInt w m = w ∧
    readStdVectorObjP fuel r = .ret [] r ∧
    writeStdVectorObjP w vs = w := by
  have hrs : r.err.isSome = true := by
    rw [hr]
    rfl
  have hws : w.err.isSome = true := by
    rw [hw]
    rfl
  refine ⟨?_, ?_, ?_, ?_, ?_, ?_⟩
  · match f with
    | .mk nm cp aps ps fm nd lp vz =>
      unfold Formula.MarshalROOT
      simp [hws]
  · unfold Formula.UnmarshalROOT
    simp [hrs]
  · unfold readMapStringInt
    simp [hrs]
  · unfold writeMapStringInt
    simp [hws]
  · unfold readStdVectorObjP
    simp [hrs]
  · unfold writeStdVectorObjP
    simp [hws]

theorem c6_sticky_error_noop_witness :
    (⟨[7], 0, some Err.bufferExhausted⟩ : RBuffer).err = some Err.bufferExhausted ∧
    (⟨[7], some Err.bufferExhausted⟩ : WBuffer).err = some Err.bufferExhausted ∧
    Formula.MarshalROOT newFormula ⟨[7], some Err.bufferExhausted⟩ =
      (⟨[7], some Err.bufferExhausted⟩, 0) ∧
    Formula.UnmarshalROOT 0 newFormula ⟨[7], 0, some Err.bufferExhausted⟩ =
      .ret newFormula ⟨[7], 0, some Err.bufferExhausted⟩ ∧
    readMapStringInt ⟨[7], 0, some Err.bufferExhausted⟩ =
      .ret [] ⟨[7], 0, some Err.bufferExhausted⟩ ∧
    writeMapStringInt ⟨[7], some Err.bufferExhausted⟩ [] =
      ⟨[7], some Err.bufferExhausted⟩ ∧
    readStdVectorObjP 0 ⟨[7], 0, some Err.bufferExhausted⟩ =
      .ret [] ⟨[7], 0, some Err.bufferExhausted⟩ ∧
    writeStdVectorObjP ⟨[7], some Err.bufferExhausted⟩ [] =
      ⟨[7], some Err.bufferExhausted⟩ := by
  have h := c6_sticky_error_noop ⟨[7], 0, some Err.bufferExhausted⟩
    ⟨[7], some Err.bufferExhausted⟩ Err.bufferExhausted Err.bufferExhausted
    rfl rfl newFormula newFormula [] [] 0
  exact ⟨rfl, rfl, h.1, h.2.1, h.2.2.1, h.2.2.2.1, h.2.2.2.2.1, h.2.2.2.2.2⟩

/-- C7: whenever the bytes consumed for the payload of a record differ
from the recorded length of its frame, the end-of-record check sets the sticky
frame-length-mismatch error, identifying the class name together with the
recorded and the actually consumed byte counts; because the error is
sticky, every later operation on the buffer refuses to run, so the
mismatch is not recoverable for that record. -/
theorem c7_frame_length_mismatch (r : RBuffer) (pos bcnt : Nat)
    (cls : List Nat) (he : r.err = none) (hm : r.pos - pos ≠ bcnt) :
    r.checkByteCount pos bcnt cls =
      { r with err := some (.frameLengthMismatch cls bcnt (r.pos - pos)) } := by
  unfold RBuffer.checkByteCount
  rw [he]
  simp [hm]

theorem c7_frame_length_mismatch_witness :
    (⟨[0], 9, none⟩ : RBuffer).err = none ∧
    (⟨[0], 9, none⟩ : RBuffer).pos - 6 ≠ 5 ∧
    RBuffer.checkByteCount ⟨[0], 9, none⟩ 6 5 tformulaName =
      ⟨[0], 9, some (.frameLengthMismatch tformulaName 5 3)⟩ :=
  ⟨rfl, by decide,
   c7_frame_length_mismatch ⟨[0], 9, none⟩ 6 5 tformulaName rfl (by decide)⟩

/-- C8: decoding the string-to-int32 container accumulates the n pairs read
from the buffer into a map keyed by string in which every key is bound to
the value of its last occurrence in the input sequence: duplicate keys
overwrite earlier bindings. Stated over an arbitrary (possibly duplicated)
encoded pair sequence. -/
theorem c8_map_decode_last_wins (ps : List (List Nat × Int))
    (hv : validPairsb ps = true) (hlen : ps.length < 2147483648)
    (hP : (encMapBody ps).length < 4294967296) :
    readMapStringInt ⟨encMap ps, 0, none⟩ =
      .ret (foldIns [] ps) ⟨encMap ps, (encMap ps).length, none⟩ ∧
    ∀ k, mapLookup (foldIns [] ps) k = lastBinding ps k := by
  constructor
  · have := readMapStringInt_ok ps hv hlen hP [] []
    simpa using this
  · intro k
    rw [mapLookup_foldIns ps [] k]
    cases lastBinding ps k <;> simp [mapLookup]

def psdup : List (List Nat × Int) := [([97], 1), ([97], 2), ([98], 5)]

theorem c8_map_decode_last_wins_witness :
    validPairsb psdup = true ∧
    readMapStringInt ⟨encMap psdup, 0, none⟩ =
      .ret (foldIns [] psdup) ⟨encMap psdup, (encMap psdup).length, none⟩ ∧
    mapLookup (foldIns [] psdup) [97] = some 2 ∧
    lastBinding psdup [97] = some 2 := by
  have h := c8_map_decode_last_wins psdup (by decide) (by decide) (by decide)
  exact ⟨by decide, h.1, by decide, by decide⟩

/-- C9: the container decoders readMapStringInt and readStdVectorObjP
accept exactly one frame version, rvers.StreamerInfo: for every frame
version different from it, in either direction, they set the sticky
invalid-version error on the buffer and return nil with the cursor still at
the end of the frame header, before the count or any entry is read; an
exact-equality check, not a range check. -/
theorem c9_container_version_exact (vb c : Nat) (hvb : vb < 65536)
    (hc : c < 4294967296) (payload : List Nat) (fuel : Nat)
    (hne : toI16 vb ≠ rversStreamerInfo) :
    readMapStringInt ⟨u16be vb ++ (u32be c ++ payload), 0, none⟩ =
      .ret [] ⟨u16be vb ++ (u32be c ++ payload), 6,
        some (.invalidVersion mapTypename (toI16 vb) rversStreamerInfo)⟩ ∧
    readStdVectorObjP fuel ⟨u16be vb ++ (u32be c ++ payload), 0, none⟩ =
      .ret [] ⟨u16be vb ++ (u32be c ++ payload), 6,
        some (.invalidVersion vecTypename (toI16 vb) rversStreamerInfo)⟩ := by
  have hrv1 := readVersion_at mapTypename [] payload vb c hvb hc
  simp only [List.nil_append, List.length_nil] at hrv1
  have hrv2 := readVersion_at vecTypename [] payload vb c hvb hc
  simp only [List.nil_append, List.length_nil] at hrv2
  constructor
  · unfold readMapStringInt
    simp [hrv1, hne, RBuffer.setErr]
  · unfold readStdVectorObjP
    simp [hrv2, hne, RBuffer.setErr]

theorem c9_container_version_exact_witness :
    ((10 : Nat) < 65536 ∧ toI16 10 ≠ rversStreamerInfo ∧
      readMapStringInt ⟨u16be 10 ++ (u32be 0 ++ []), 0, none⟩ =
        .ret [] ⟨u16be 10 ++ (u32be 0 ++ []), 6,
          some (.invalidVersion mapTypename (toI16 10) rversStreamerInfo)⟩) ∧
    ((8 : Nat) < 65536 ∧ toI16 8 ≠ rversStreamerInfo ∧
      readStdVectorObjP 0 ⟨u16be 8 ++ (u32be 0 ++ []), 0, none⟩ =
        .ret [] ⟨u16be 8 ++ (u32be 0 ++ []), 6,
          some (.invalidVersion vecTypename (toI16 8) rversStreamerInfo)⟩) :=
  ⟨⟨by decide, by decide,
    (c9_container_version_exact 10 0 (by decide) (by decide) [] 0 (by decide)).1⟩,
   ⟨by decide, by decide,
    (c9_container_version_exact 8 0 (by decide) (by decide) [] 0 (by decide)).2⟩⟩

/-- C10: after package initialization the process-wide factory holds an
entry for the class name TFormula whose zero-argument constructor builds a
fresh Formula whose name and title are both the empty string. -/
theorem c10_factory_tformula :
    factoryGet tformulaName = some (fun _ => newFormula) ∧
    newFormula.Name = [] ∧ newFormula.Title = [] :=
  ⟨rfl, rfl, rfl⟩
